import Mathlib

/-!
Verification development for the broker query-compilation core of a columnar
analytic database (package `broker`, file `query_context.go`).  The data model
and the operations below are a shallow embedding of that Go source: the AST of
the expression language, the per-node rewriter `QueryContext.Rewrite`, the
`IN`-operator expansion `expandINop`, the conjunction flattener
`normalizeAndFilters`, the pipeline stages (`readSchema`, `processJoins`,
`processMeasures`, `processDimensions`, `processFilters`,
`sortDimensionColumns`) and the driver `Compile`.

Code of the repository that is not part of the embedded file (the `expr`
package's AST declarations and its generic post-order walker, the token and
type enumerations, `Cast`, the schema reader, the expression parser, timezone
lookup and geo-point parsing) is modelled from the specification; every such
definition carries a doc comment starting with `Modelled from the spec:`.

Go panics (nil-pointer dereferences, failed type assertions, out-of-range
indexing) are represented by `Option`: a result of `none` means the Go code
panics on that input.  The mutable `qc.Error` slot is an `Option String`
threaded through every operation.
-/

namespace AresBroker

/-- Modelled from the spec: the expression-type lattice
`Boolean < Unsigned < Signed < Float`, with `UnknownType` for unresolved
nodes and auxiliary leaf types for geo and UUID columns.  Go compares these
numerically; `ExprType.rank` below gives the numeric codes in lattice order. -/
inductive ExprType
  | UnknownType
  | Boolean
  | Unsigned
  | Signed
  | Float
  | GeoPoint
  | GeoShape
  | UUID
  deriving DecidableEq, Repr

/-- Numeric code of an expression type (Go compares `Type` values with `<`). -/
def ExprType.rank : ExprType → Nat
  | .UnknownType => 0
  | .Boolean => 1
  | .Unsigned => 2
  | .Signed => 3
  | .Float => 4
  | .GeoPoint => 5
  | .GeoShape => 6
  | .UUID => 7

/-- Modelled from the spec: the operator tokens of the `expr` package.
Binary operators come first, in the spec's order
`ADD, SUB, MUL, DIV, MOD, BITWISE_AND, BITWISE_OR, BITWISE_XOR,
BITWISE_LEFT_SHIFT, BITWISE_RIGHT_SHIFT, AND, OR, LT, LTE, GT, GTE, EQ, NEQ,
IN, NOT_IN, FLOOR, CONVERT_TZ`, then the unary operators.  `CAST` is the
synthesized unary-cast operator produced by the cast engine (it is never an
input token). -/
inductive Token
  | ILLEGAL
  | ADD
  | SUB
  | MUL
  | DIV
  | MOD
  | BITWISE_AND
  | BITWISE_OR
  | BITWISE_XOR
  | BITWISE_LEFT_SHIFT
  | BITWISE_RIGHT_SHIFT
  | AND
  | OR
  | LT
  | LTE
  | GT
  | GTE
  | EQ
  | NEQ
  | IN
  | NOT_IN
  | FLOOR
  | CONVERT_TZ
  | NOT
  | EXCLAMATION
  | IS_FALSE
  | IS_TRUE
  | IS_NULL
  | IS_NOT_NULL
  | UNARY_MINUS
  | BITWISE_NOT
  | GET_MONTH_START
  | GET_QUARTER_START
  | GET_YEAR_START
  | GET_WEEK_START
  | GET_DAY_OF_MONTH
  | GET_DAY_OF_YEAR
  | GET_MONTH_OF_YEAR
  | GET_QUARTER_OF_YEAR
  | GET_HLL_VALUE
  | CAST
  deriving DecidableEq, Repr

/-- Numeric code of a token (Go's range test `ADD <= t && t <= BITWISE_LEFT_SHIFT`
compares these codes). -/
def Token.code : Token → Nat
  | .ILLEGAL => 0
  | .ADD => 1
  | .SUB => 2
  | .MUL => 3
  | .DIV => 4
  | .MOD => 5
  | .BITWISE_AND => 6
  | .BITWISE_OR => 7
  | .BITWISE_XOR => 8
  | .BITWISE_LEFT_SHIFT => 9
  | .BITWISE_RIGHT_SHIFT => 10
  | .AND => 11
  | .OR => 12
  | .LT => 13
  | .LTE => 14
  | .GT => 15
  | .GTE => 16
  | .EQ => 17
  | .NEQ => 18
  | .IN => 19
  | .NOT_IN => 20
  | .FLOOR => 21
  | .CONVERT_TZ => 22
  | .NOT => 23
  | .EXCLAMATION => 24
  | .IS_FALSE => 25
  | .IS_TRUE => 26
  | .IS_NULL => 27
  | .IS_NOT_NULL => 28
  | .UNARY_MINUS => 29
  | .BITWISE_NOT => 30
  | .GET_MONTH_START => 31
  | .GET_QUARTER_START => 32
  | .GET_YEAR_START => 33
  | .GET_WEEK_START => 34
  | .GET_DAY_OF_MONTH => 35
  | .GET_DAY_OF_YEAR => 36
  | .GET_MONTH_OF_YEAR => 37
  | .GET_QUARTER_OF_YEAR => 38
  | .GET_HLL_VALUE => 39
  | .CAST => 40

/-- Modelled from the spec: the storage-level data types referenced by
`VarRef.DataType` (`memstore/common`).  `UnknownDT` is the zero value of the
Go enumeration. -/
inductive DataType
  | UnknownDT
  | Bool
  | Int8
  | Uint8
  | Int16
  | Uint16
  | Int32
  | Uint32
  | Int64
  | Float32
  | UUID
  | GeoPoint
  | GeoShape
  | ArrayT (elem : DataType)
  deriving DecidableEq, Repr

/-- Modelled from the spec: `memCom.DataTypeBytes`, the byte width of each
data type (`DataTypeBytes(T)` is defined for each).  Variable-length types
(`GeoShape`, arrays) and the zero value report 0 bytes. -/
def dataTypeBytes : DataType → Nat
  | .UnknownDT => 0
  | .Bool => 1
  | .Int8 => 1
  | .Uint8 => 1
  | .Int16 => 2
  | .Uint16 => 2
  | .Int32 => 4
  | .Uint32 => 4
  | .Int64 => 8
  | .Float32 => 4
  | .UUID => 16
  | .GeoPoint => 8
  | .GeoShape => 0
  | .ArrayT _ => 0

/-- Modelled from the spec: `common.DataTypeToExprType`.  Unsigned storage
types map to `Unsigned`, signed ones to `Signed`, `Float32` to `Float`;
the zero data type and array types are absent from the Go map, so they map to
the zero expression type `UnknownType`. -/
def dataTypeToExprType : DataType → ExprType
  | .UnknownDT => .UnknownType
  | .Bool => .Boolean
  | .Int8 => .Signed
  | .Uint8 => .Unsigned
  | .Int16 => .Signed
  | .Uint16 => .Unsigned
  | .Int32 => .Signed
  | .Uint32 => .Unsigned
  | .Int64 => .Signed
  | .Float32 => .Float
  | .UUID => .UUID
  | .GeoPoint => .GeoPoint
  | .GeoShape => .GeoShape
  | .ArrayT _ => .UnknownType

/-- Modelled from the spec: `memCom.IsArrayType`. -/
def isArrayType : DataType → Bool
  | .ArrayT _ => true
  | _ => false

/-- Modelled from the spec: the tagged-variant expression AST of the `expr`
package.  `nilExpr` stands for a nil Go `expr.Expr` interface value (slots
that were never filled).  The `Val float64` field of `NumberLiteral` is
floating point and is not represented; the claims only use the `Int` field. -/
inductive Expr
  | numberLiteral (int : Int) (text : String) (exprType : ExprType)
  | stringLiteral (val : String)
  | booleanLiteral (val : Bool)
  | geopointLiteral (val : String)
  | varRef (val : String) (exprType : ExprType) (tableID : Int) (columnID : Int)
      (dataType : DataType) (enumDict : Option (List (String × Int)))
      (enumReverseDict : List String) (isHLLColumn : Bool)
  | unary (op : Token) (child : Expr) (exprType : ExprType)
  | binary (op : Token) (lhs : Expr) (rhs : Expr) (exprType : ExprType)
  | call (name : String) (args : List Expr) (exprType : ExprType)
  | caseE (whenThens : List (Expr × Expr)) (elseExpr : Expr) (exprType : ExprType)
  | paren (child : Expr)
  | wildcard
  | nilExpr
  deriving Repr

/-- Modelled from the spec: the `Type()` method of each AST variant.
A `StringLiteral` is untyped text; `Wildcard` is unresolved.  (Go would panic
calling `Type()` on a nil interface; the claims never reach that, and we give
`nilExpr` the unknown type.) -/
def Expr.type : Expr → ExprType
  | .numberLiteral _ _ t => t
  | .stringLiteral _ => .UnknownType
  | .booleanLiteral _ => .Boolean
  | .geopointLiteral _ => .GeoPoint
  | .varRef _ t _ _ _ _ _ _ => t
  | .unary _ _ t => t
  | .binary _ _ _ t => t
  | .call _ _ t => t
  | .caseE _ _ t => t
  | .paren c => c.type
  | .wildcard => .UnknownType
  | .nilExpr => .UnknownType

/-- Whether the dynamic type of the node is `*expr.VarRef`. -/
def Expr.isVarRef : Expr → Bool
  | .varRef _ _ _ _ _ _ _ _ => true
  | _ => false

/-- Whether the dynamic type of the node is `*expr.StringLiteral`. -/
def Expr.isStringLiteral : Expr → Bool
  | .stringLiteral _ => true
  | _ => false

/-- Whether the top-level node is an `AND` binary expression (the test made by
`normalizeAndFilters`). -/
def Expr.isTopAnd : Expr → Bool
  | .binary .AND _ _ _ => true
  | _ => false

/-- Modelled from the spec: the cast engine (§4.1).  `cast(e, t)` is the
identity if `e.type == t`; otherwise it rewrites a number literal's type, or
wraps `e` in a synthesized unary-cast node. -/
def castTo (e : Expr) (t : ExprType) : Expr :=
  if e.type = t then e
  else
    match e with
    | .numberLiteral i s _ => .numberLiteral i s t
    | _ => .unary .CAST e t

mutual

/-- Size of an expression, used as the termination measure of the rewriter
(the `IN` expansion recursively rewrites strictly smaller synthesized nodes). -/
def esize : Expr → Nat
  | .unary _ c _ => 1 + esize c
  | .binary _ l r _ => 1 + esize l + esize r
  | .paren c => 1 + esize c
  | .call _ args _ => 1 + esizeList args
  | .caseE wts e _ => 1 + esizePairs wts + esize e
  | _ => 1

/-- Total size of a list of expressions. -/
def esizeList : List Expr → Nat
  | [] => 0
  | e :: rest => esize e + esizeList rest

/-- Total size of a list of when/then pairs. -/
def esizePairs : List (Expr × Expr) → Nat
  | [] => 0
  | (w, t) :: rest => esize w + esize t + esizePairs rest

end

theorem esize_pos (e : Expr) : 0 < esize e := by
  cases e <;> simp [esize]

theorem esizeList_append (a b : List Expr) :
    esizeList (a ++ b) = esizeList a + esizeList b := by
  induction a with
  | nil => simp [esizeList]
  | cons x xs ih => simp [esizeList, ih]; omega

theorem esizeList_set_add (l : List Expr) (i : Nat) (x : Expr) (h : i < l.length) :
    esizeList (l.set i x) + esize l[i] = esizeList l + esize x := by
  induction l generalizing i with
  | nil => simp at h
  | cons y ys ih =>
    cases i with
    | zero => simp [List.set, esizeList]; omega
    | succ n =>
      simp only [List.set, esizeList, List.getElem_cons_succ]
      have := ih n (by simpa using Nat.lt_of_succ_lt_succ h)
      omega

/-- `normalizeAndFilters` (verbatim loop from the Go source): scan the filter
list; if element `i` is a top-level `AND`, replace it with its left operand
and append the right operand at the end; otherwise advance. -/
def normalizeAndFiltersGo (filters : List Expr) (i : Nat) : List Expr :=
  if h : i < filters.length then
    match hm : filters[i] with
    | .binary .AND l r _ => normalizeAndFiltersGo (filters.set i l ++ [r]) i
    | _ => normalizeAndFiltersGo filters (i + 1)
  else filters
termination_by (esizeList filters, filters.length - i)
decreasing_by
  · apply Prod.Lex.left
    have key := esizeList_set_add filters i l h
    rw [hm] at key
    simp only [esize] at key
    rw [esizeList_append]
    simp only [esizeList]
    omega
  · apply Prod.Lex.right
    omega

/-- Embeds `normalizeAndFilters`: extracts top `AND` operators and flattens
them into the filter slice. -/
def normalizeAndFilters (filters : List Expr) : List Expr :=
  normalizeAndFiltersGo filters 0

/-- Lookup in an association list, modelling a Go `map[string]V` read. -/
def lookupStr {α : Type} (m : List (String × α)) (k : String) : Option α :=
  (m.find? (fun p => p.1 == k)).map Prod.snd

/-- Modelled from the spec: one column of a table schema
(`{Name, Type, Deleted, HLLConfig.IsHLLColumn}`). -/
structure Column where
  name : String
  typ : DataType
  deleted : Bool
  isHLLColumn : Bool
  deriving Repr

/-- Modelled from the spec: a column's enum dictionaries
(`EnumDicts: name → (Dict, ReverseDict)`); a missing map entry reads as the
zero value `(nil, nil)`. -/
structure EnumDictInfo where
  dict : Option (List (String × Int))
  reverseDict : List String
  deriving Repr

/-- Modelled from the spec: the schema-reader view of one table
(`Schema.Columns`, `ColumnIDs`, `ValueTypeByColumn`, `EnumDicts`).  The
read-lock bookkeeping is not represented. -/
structure TableSchema where
  columns : List Column
  columnIDs : List (String × Nat)
  valueTypeByColumn : List DataType
  enumDicts : List (String × EnumDictInfo)
  deriving Repr

/-- Modelled from the spec: one join clause of an AQL query. -/
structure Join where
  table : String
  joinAlias : String
  conditions : List String
  conditionsParsed : List Expr
  deriving Repr

/-- Modelled from the spec: one measure of an AQL query (`nilExpr` models an
unset `ExprParsed` slot). -/
structure Measure where
  expr : String
  exprParsed : Expr
  filters : List String
  filtersParsed : List Expr
  deriving Repr

/-- Modelled from the spec: one dimension of an AQL query. -/
structure Dimension where
  expr : String
  exprParsed : Expr
  deriving Repr

/-- Modelled from the spec: the relevant fields of an AQL query. -/
structure AQLQuery where
  table : String
  joins : List Join
  measures : List Measure
  dimensions : List Dimension
  filters : List String
  filtersParsed : List Expr
  limit : Int
  supportingMeasures : List Measure
  supportingDimensions : List Dimension
  deriving Repr

/-- Embeds the broker `QueryContext` record.  `Tables` is built append-wise
(the Go slice is nil-initialized; an out-of-range read models the nil-pointer
dereference as a panic).  `NumDimsPerDimWidth` is modelled per the spec as a
list of four width buckets (8, 4, 2 and 1 bytes).  `TableSchemaByName` is
used by the source only for lock release and is not represented. -/
structure QueryContext where
  aqlQuery : AQLQuery
  isNonAggregationQuery : Bool
  returnHLLBinary : Bool
  error : Option String
  tables : List TableSchema
  tableIDByAlias : List (String × Nat)
  numDimsPerDimWidth : List Nat
  dimensionEnumReverseDicts : List (Nat × List String)
  dimensionVectorIndex : List Nat
  dimRowBytes : Nat
  deriving Repr

/-- Sets `qc.Error` (a plain Go assignment; the pipeline never clears it). -/
def QueryContext.withError (qc : QueryContext) (msg : String) : QueryContext :=
  { qc with error := some msg }

/-- Modelled from the spec: the external collaborators of the core — the
expression parser contract `parse(text) → AST | ParseError`, the schema
reader `GetSchema(name)`, the timezone lookup
(`ParseTimezone` + `Now().In(tz).Zone()`, a fixed compile-time offset), and
`GeoPointFromString`. -/
structure BrokerEnv where
  parseExpr : String → Except String Expr
  getSchema : String → Except String TableSchema
  tzOffsetNow : String → Except String Int
  geoPointFromString : String → Except String String

/-- `nonAggregationQueryLimit` constant. -/
def nonAggregationQueryLimit : Int := 1000

/-- Modelled from the spec: `common.SecondsPerDay`. -/
def secondsPerDay : Int := 86400

/-- Modelled from the spec: `common.SecondsPerHour`. -/
def secondsPerHour : Int := 3600

/-- Modelled from the spec: `common.DaysPerWeek`. -/
def daysPerWeek : Int := 7

/-- Modelled from the spec: `common.WeekdayOffset`. -/
def weekdayOffset : Int := 4

/-- Modelled from the spec: `expr.ConvertTzCallName`. -/
def convertTzCallName : String := "convert_tz"

/-- Modelled from the spec: `expr.CountCallName`. -/
def countCallName : String := "count"

/-- Modelled from the spec: `expr.DayOfWeekCallName`. -/
def dayOfWeekCallName : String := "dayofweek"

/-- Modelled from the spec: `expr.FromUnixTimeCallName`. -/
def fromUnixTimeCallName : String := "from_unixtime"

/-- Modelled from the spec: `expr.HourCallName`. -/
def hourCallName : String := "hour"

/-- Modelled from the spec: `expr.ListCallName`. -/
def listCallName : String := "list"

/-- Modelled from the spec: `expr.GeographyIntersectsCallName`. -/
def geographyIntersectsCallName : String := "geography_intersects"

/-- Modelled from the spec: `expr.HexCallName`. -/
def hexCallName : String := "hex"

/-- Modelled from the spec: `expr.CountDistinctHllCallName`. -/
def countDistinctHllCallName : String := "countdistincthll"

/-- Modelled from the spec: `expr.HllCallName`. -/
def hllCallName : String := "hll"

/-- Modelled from the spec: `expr.SumCallName`. -/
def sumCallName : String := "sum"

/-- Modelled from the spec: `expr.MinCallName`. -/
def minCallName : String := "min"

/-- Modelled from the spec: `expr.MaxCallName`. -/
def maxCallName : String := "max"

/-- Modelled from the spec: `expr.AvgCallName`. -/
def avgCallName : String := "avg"

/-- Modelled from the spec: `expr.LengthCallName`. -/
def lengthCallName : String := "length"

/-- Modelled from the spec: `expr.ContainsCallName`. -/
def containsCallName : String := "contains"

/-- Modelled from the spec: `expr.ElementAtCallName`. -/
def elementAtCallName : String := "element_at"

/-- Modelled from the spec: `expr.IsUUIDColumn` — whether the expression is a
`VarRef` over a UUID column. -/
def isUUIDColumn : Expr → Bool
  | .varRef _ _ _ _ dt _ _ _ => dt = DataType.UUID
  | _ => false

/-- Embeds `blockNumericOpsForColumnOverFourBytes`: for `UNARY_MINUS`,
`BITWISE_NOT` and binary operator tokens in the code range
`[ADD .. BITWISE_LEFT_SHIFT]`, reject any `VarRef` operand whose data type is
wider than 4 bytes.  (The Go error message quotes the offending expression;
only a fixed message is represented here.) -/
def blockNumericOpsForColumnOverFourBytes (token : Token) (expressions : List Expr) :
    Option String :=
  if token = Token.UNARY_MINUS ∨ token = Token.BITWISE_NOT ∨
      (Token.ADD.code ≤ token.code ∧ token.code ≤ Token.BITWISE_LEFT_SHIFT.code) then
    if expressions.any (fun e =>
        match e with
        | .varRef _ _ _ _ dt _ _ _ => 4 < dataTypeBytes dt
        | _ => false) then
      some "numeric operations not supported for column over 4 bytes length"
    else none
  else none

/-- `strings.SplitN(s, ".", 2)`: split the character list at the first dot,
if any (at most two segments). -/
def splitNDot2Aux (acc : List Char) : List Char → List String
  | [] => [String.mk acc.reverse]
  | c :: rest =>
    if c = '.' then [String.mk acc.reverse, String.mk rest]
    else splitNDot2Aux (c :: acc) rest

/-- `strings.SplitN(identifier, ".", 2)` as used by `resolveColumn`. -/
def splitNDot2 (s : String) : List String := splitNDot2Aux [] s.data

/-- `strings.ToLower` restricted to ASCII letters (the call names the source
compares against are all ASCII). -/
def toLowerChar (c : Char) : Char :=
  if 'A' ≤ c ∧ c ≤ 'Z' then Char.ofNat (c.toNat + 32) else c

/-- `strings.ToLower` over the character list. -/
def strToLower (s : String) : String := String.mk (s.data.map toLowerChar)

/-- Embeds `QueryContext.resolveColumn`.  The identifier is split on the first
dot into a table alias (defaulting to the main table) and a column name; the
alias is resolved through `TableIDByAlias` and the column through the table's
`ColumnIDs`.  The outer `Option` models the Go panic on an out-of-range
`Tables` read. -/
def QueryContext.resolveColumn (qc : QueryContext) (identifier : String) :
    Option (Except String (Nat × Nat)) :=
  let segments := splitNDot2 identifier
  let tableAlias := if segments.length = 2 then segments.headD "" else qc.aqlQuery.table
  let column :=
    if segments.length = 2 then segments.getD 1 "" else identifier
  match lookupStr qc.tableIDByAlias tableAlias with
  | none => some (.error ("unknown table alias " ++ tableAlias))
  | some tableID =>
    match qc.tables[tableID]? with
    | none => none
    | some schema =>
      match lookupStr schema.columnIDs column with
      | none => some (.error ("unknown column " ++ column ++ " for table alias " ++ tableAlias))
      | some columnID => some (.ok (tableID, columnID))

/-- The `*expr.VarRef` case of `QueryContext.Rewrite`: resolve the column,
reject deleted columns, then fill in the expression type
(`DataTypeToExprType` of the column's value type), table and column ids, enum
dictionaries and the HLL flag.  `none` models the Go panic on an
out-of-range `Tables`/`Columns`/`ValueTypeByColumn` read. -/
def rewriteVarRefNode (qc : QueryContext) (v : String) (et : ExprType)
    (tid cid : Int) (dt : DataType) (ed : Option (List (String × Int)))
    (erd : List String) (hll : Bool) : Option (Expr × QueryContext) :=
  match qc.resolveColumn v with
  | none => none
  | some (.error msg) => some (.varRef v et tid cid dt ed erd hll, qc.withError msg)
  | some (.ok (tableID, columnID)) =>
    match qc.tables[tableID]? with
    | none => none
    | some schema =>
      match schema.columns[columnID]? with
      | none => none
      | some column =>
        if column.deleted then
          some (.varRef v et tid cid dt ed erd hll,
            qc.withError ("column " ++ column.name ++ " has been deleted"))
        else
          match schema.valueTypeByColumn[columnID]? with
          | none => none
          | some dataType =>
            let dictInfo := (lookupStr schema.enumDicts column.name).getD ⟨none, []⟩
            some (.varRef v (dataTypeToExprType dataType) (Int.ofNat tableID)
              (Int.ofNat columnID) dataType dictInfo.dict dictInfo.reverseDict
              column.isHLLColumn, qc)

/-- The `*expr.UnaryExpr` case of `QueryContext.Rewrite`: UUID-column
restriction, the four-byte rule, then the per-operator normalization
(`NOT` forms, `UNARY_MINUS` signed upgrade, `IS_TRUE` elimination or
double-negation, unsigned casts for the bitwise and time-bucket operators).
This case never panics. -/
def rewriteUnaryNode (qc : QueryContext) (op : Token) (child : Expr)
    (t0 : ExprType) : Expr × QueryContext :=
  if isUUIDColumn child ∧ op ≠ Token.GET_HLL_VALUE then
    (.unary op child t0,
      qc.withError "uuid column type only supports countdistincthll unary expression")
  else
    match blockNumericOpsForColumnOverFourBytes op [child] with
    | some msg => (.unary op child t0, qc.withError msg)
    | none =>
      match op with
      | .EXCLAMATION | .NOT | .IS_FALSE =>
        let newChild := castTo child .Boolean
        match newChild with
        | .call n cargs ct =>
          if n = geographyIntersectsCallName then
            (.unary .NOT (.call n cargs ct) .Boolean,
              qc.withError "Not geography_intersects condition is not allowed")
          else (.unary .NOT (.call n cargs ct) .Boolean, qc)
        | nc => (.unary .NOT nc .Boolean, qc)
      | .UNARY_MINUS =>
        (.unary op child
          (if (child.type).rank < ExprType.Signed.rank then .Signed else child.type), qc)
      | .IS_NULL | .IS_NOT_NULL => (.unary op child .Boolean, qc)
      | .IS_TRUE =>
        if child.type = ExprType.Boolean then (child, qc)
        else (.unary .NOT (.unary .NOT (castTo child .Boolean) .Boolean) .Boolean, qc)
      | .BITWISE_NOT => (.unary op (castTo child .Unsigned) .Unsigned, qc)
      | .GET_MONTH_START | .GET_QUARTER_START | .GET_YEAR_START | .GET_WEEK_START =>
        (.unary op (castTo child .Unsigned) .Unsigned, qc)
      | .GET_DAY_OF_MONTH | .GET_DAY_OF_YEAR | .GET_MONTH_OF_YEAR
      | .GET_QUARTER_OF_YEAR =>
        (.unary op (castTo child .Unsigned) .Unsigned, qc)
      | .GET_HLL_VALUE => (.unary op (castTo child .Unsigned) .Unsigned, qc)
      | _ => (.unary op child child.type, qc.withError "unsupported unary expression")

/-- The paren-stripping of `from_unixtime`'s first argument (the Go
`dl.(*expr.ParenExpr)` unwrap). -/
def parenStrip : Expr → Expr
  | .paren inner => inner
  | x => x

/-- The `EQ`/`NEQ` arm of the `*expr.BinaryExpr` case of
`QueryContext.Rewrite`: swap a right-hand `VarRef` to the left, fold
comparisons against boolean literals into `IS_TRUE`/`NOT`, translate enum
strings through the column dictionary (`-1` when absent), cast both sides to
the highest type, and parse geo-point strings.  `none` models the Go
nil-pointer dereference when a `StringLiteral` right side meets a
non-`VarRef` left side. -/
def rewriteEqNeq (env : BrokerEnv) (qc : QueryContext) (op : Token)
    (lhs rhs : Expr) : Option (Expr × QueryContext) :=
  let highestType := if (rhs.type).rank > (lhs.type).rank then rhs.type else lhs.type
  match (if !lhs.isVarRef && rhs.isVarRef then (rhs, lhs) else (lhs, rhs)) with
  | (l, r) =>
    match l, r with
    | .varRef lv lty lti lci ldt led lerd lhll, .booleanLiteral b =>
      if (op = Token.EQ ∧ b = true) ∨ (op = Token.NEQ ∧ b = false) then
        some (.unary .IS_TRUE (.varRef lv lty lti lci ldt led lerd lhll) .Boolean, qc)
      else
        some (.unary .NOT (.varRef lv lty lti lci ldt led lerd lhll) .Boolean, qc)
    | l1, r1 =>
      match l1, r1 with
      | .varRef lv lty lti lci ldt (some d) lerd lhll, .stringLiteral s =>
        some (.binary op (.varRef lv lty lti lci ldt (some d) lerd lhll)
          (.numberLiteral ((lookupStr d s).getD (-1)) "" .Unsigned) .Boolean, qc)
      | l2, r2 =>
        let l3 := castTo l2 highestType
        let r3 := castTo r2 highestType
        match r2 with
        | .stringLiteral s =>
          match l2 with
          | .varRef _ _ _ _ ldt _ _ _ =>
            if ldt = DataType.GeoPoint then
              match env.geoPointFromString s with
              | .error msg => some (.binary op l3 r3 .Boolean, qc.withError msg)
              | .ok gval =>
                some (.binary op l3 (.geopointLiteral gval) .Boolean, qc)
            else some (.binary op l3 r3 .Boolean, qc)
          | _ => none
        | _ => some (.binary op l3 r3 .Boolean, qc)

/-- The non-`IN` arms of the `*expr.BinaryExpr` case of
`QueryContext.Rewrite` (after the four-byte rule and the string-literal
restriction already passed): type upgrades and casts for the arithmetic,
bitwise, logical and comparison operators, `rewriteEqNeq` for `EQ`/`NEQ`,
and the unsupported-operator error. -/
def rewriteBinaryRest (env : BrokerEnv) (qc : QueryContext) (op : Token)
    (lhs rhs : Expr) (t0 : ExprType) : Option (Expr × QueryContext) :=
  let highestType := if (rhs.type).rank > (lhs.type).rank then rhs.type else lhs.type
  match op with
  | .ADD | .SUB =>
    if highestType = ExprType.Float then
      some (.binary op (castTo lhs .Float) (castTo rhs .Float) highestType, qc)
    else if op = Token.SUB then some (.binary op lhs rhs .Signed, qc)
    else some (.binary op lhs rhs highestType, qc)
  | .MUL | .MOD =>
    some (.binary op (castTo lhs highestType) (castTo rhs highestType) highestType, qc)
  | .DIV => some (.binary op (castTo lhs .Float) (castTo rhs .Float) .Float, qc)
  | .BITWISE_AND | .BITWISE_OR | .BITWISE_XOR | .BITWISE_LEFT_SHIFT
  | .BITWISE_RIGHT_SHIFT | .FLOOR | .CONVERT_TZ =>
    some (.binary op (castTo lhs .Unsigned) (castTo rhs .Unsigned) .Unsigned, qc)
  | .AND | .OR =>
    some (.binary op (castTo lhs .Boolean) (castTo rhs .Boolean) .Boolean, qc)
  | .LT | .LTE | .GT | .GTE =>
    some (.binary op (castTo lhs highestType) (castTo rhs highestType) .Boolean, qc)
  | .EQ | .NEQ => rewriteEqNeq env qc op lhs rhs
  | _ => some (.binary op lhs rhs t0, qc.withError "unsupported binary expression")

/-- The `*expr.Call` case of `QueryContext.Rewrite`: lowercase the name, then
dispatch — `convert_tz` folding, `count`, the `dayofweek`/`hour` arithmetic
expansions, the `from_unixtime` shape restriction, `list` passthrough,
`geography_intersects` validation and argument swap, `hex`,
`countdistincthll` lowering onto `hll`, `hll`, the simple aggregates, the
array functions, and the unknown-function error.  `none` models the Go
panics (nil `*VarRef` dereferences in error-message construction, and the
out-of-range `Args[0]` read of `from_unixtime`). -/
def rewriteCallArm (env : BrokerEnv) (qc : QueryContext) (name : String)
    (args : List Expr) (t0 : ExprType) : Option (Expr × QueryContext) :=
  if name = convertTzCallName then
    match args with
    | [a0, a1, a2] =>
      match a1 with
      | .stringLiteral fromS =>
        match a2 with
        | .stringLiteral toS =>
          match env.tzOffsetNow fromS with
          | .error _ =>
            some (.call name [a0, a1, a2] t0, qc.withError "failed to rewrite convert_tz")
          | .ok fromOff =>
            match env.tzOffsetNow toS with
            | .error _ =>
              some (.call name [a0, a1, a2] t0, qc.withError "failed to rewrite convert_tz")
            | .ok toOff =>
              some (.binary .ADD a0
                (.numberLiteral (toOff - fromOff) (toString (toOff - fromOff)) .Unsigned)
                .Unsigned, qc)
        | _ =>
          some (.call name [a0, a1, a2] t0,
            qc.withError "3rd argument of convert_tz must be a string")
      | _ =>
        some (.call name [a0, a1, a2] t0,
          qc.withError "2nd argument of convert_tz must be a string")
    | _ => some (.call name args t0, qc.withError "convert_tz must have 3 arguments")
  else if name = countCallName then some (.call name args .Unsigned, qc)
  else if name = dayOfWeekCallName then
    match args with
    | [a0] =>
      some (.binary .ADD
        (.binary .MOD
          (.binary .ADD
            (.binary .DIV a0 (.numberLiteral secondsPerDay "86400" .Unsigned) .Unsigned)
            (.numberLiteral weekdayOffset "4" .Unsigned) .Unsigned)
          (.numberLiteral daysPerWeek "7" .Unsigned) .Unsigned)
        (.numberLiteral 1 "1" .Unsigned) .Unsigned, qc)
    | _ => some (.call name args t0, qc.withError "dayofweek takes exactly 1 argument")
  else if name = fromUnixTimeCallName then
    match args with
    | [] => none
    | a0 :: rest =>
      match a0 with
      | .binary .DIV dl dr dt0 =>
        match dr with
        | .numberLiteral di dtx dty =>
          if di ≠ 1000 then
            some (.call name (Expr.binary .DIV dl (.numberLiteral di dtx dty) dt0 :: rest)
              t0, qc.withError "from_unixtime must be time column / 1000")
          else
            let dl2 := parenStrip dl
            match dl2 with
            | .varRef vv vt vti vci vdt ved verd vhll =>
              some (.varRef vv vt vti vci vdt ved verd vhll, qc)
            | _ =>
              some (.call name (Expr.binary .DIV dl2 (.numberLiteral di dtx dty) dt0 :: rest)
                t0, qc.withError "from_unixtime must be time column / 1000")
        | _ =>
          some (.call name (Expr.binary .DIV dl dr dt0 :: rest) t0,
            qc.withError "from_unixtime must be time column / 1000")
      | _ =>
        some (.call name (a0 :: rest) t0,
          qc.withError "from_unixtime must be time column / 1000")
  else if name = hourCallName then
    match args with
    | [a0] =>
      some (.binary .DIV
        (.binary .MOD a0 (.numberLiteral secondsPerDay "86400" .Unsigned) .UnknownType)
        (.numberLiteral secondsPerHour "3600" .Unsigned) .Unsigned, qc)
    | _ => some (.call name args t0, qc.withError "hour takes exactly 1 argument")
  else if name = listCallName then some (.call name args t0, qc)
  else if name = geographyIntersectsCallName then
    match args with
    | [a0, a1] =>
      match a0 with
      | .varRef _ _ _ _ dt0 _ _ _ =>
        if dt0 ≠ DataType.GeoShape ∧ dt0 ≠ DataType.GeoPoint then
          some (.call name [a0, a1] t0,
            qc.withError "expect argument to be a valid geo shape or geo point column")
        else
          match a1 with
          | .varRef _ _ _ _ dt1 _ _ _ =>
            if dt1 ≠ DataType.GeoShape ∧ dt1 ≠ DataType.GeoPoint then
              some (.call name [a0, a1] t0,
                qc.withError "expect argument to be a valid geo shape or geo point column")
            else if (dt0 = DataType.GeoPoint ↔ dt1 = DataType.GeoPoint) then
              some (.call name [a0, a1] t0,
                qc.withError "expect exactly one geo shape column and one geo point column")
            else if dt0 = DataType.GeoPoint then
              some (.call name [a1, a0] .Boolean, qc)
            else some (.call name [a0, a1] .Boolean, qc)
          | _ => none
      | _ => none
    | _ =>
      some (.call name args t0, qc.withError "expect 2 argument for geography_intersects")
  else if name = hexCallName then
    match args with
    | [a0] =>
      match a0 with
      | .varRef _ _ _ _ vdt _ _ _ =>
        if vdt ≠ DataType.UUID then
          some (.call name [a0] t0,
            qc.withError "expect 1 argument to be a valid uuid column for hex")
        else some (.call name [a0] a0.type, qc)
      | _ => none
    | _ => some (.call name args t0, qc.withError "expect 1 argument for hex")
  else if name = countDistinctHllCallName then
    match args with
    | [a0] =>
      match a0 with
      | .varRef vv vt vti vci vdt ved verd vhll =>
        if vhll = false then
          some (.call hllCallName
            [.unary .GET_HLL_VALUE (.varRef vv vt vti vci vdt ved verd vhll) .Unsigned]
            .Unsigned, qc)
        else some (.call hllCallName [a0] .Unsigned, qc)
      | _ =>
        some (.call name args t0,
          qc.withError "expect 1 argument to be a column for countdistincthll")
    | _ => some (.call name args t0, qc.withError "expect 1 argument for countdistincthll")
  else if name = hllCallName then
    match args with
    | [a0] =>
      match a0 with
      | .varRef _ _ _ _ vdt _ _ _ =>
        if vdt ≠ DataType.Uint32 then
          some (.call name [a0] t0,
            qc.withError "expect 1 argument to be a valid hll column for hll")
        else some (.call name [a0] a0.type, qc)
      | _ => none
    | _ => some (.call name args t0, qc.withError "expect 1 argument for hll")
  else if name = sumCallName ∨ name = minCallName ∨ name = maxCallName ∨
      name = avgCallName then
    match args with
    | [a0] =>
      let a1 := if name = avgCallName then castTo a0 .Float else a0
      some (.call name [a1] a1.type, qc)
    | _ => some (.call name args t0, qc.withError ("expect 1 argument for " ++ name))
  else if name = lengthCallName ∨ name = containsCallName ∨
      name = elementAtCallName then
    match args with
    | [] =>
      some (.call name [] t0,
        qc.withError ("array function " ++ name ++ " requires arguments"))
    | a0 :: rest =>
      let vrInfo : Option (DataType × ExprType) :=
        match a0 with
        | .varRef _ vt _ _ vdt _ _ _ => some (vdt, vt)
        | _ => none
      let qc1 :=
        match vrInfo with
        | some (vdt, _) =>
          if isArrayType vdt = false then
            qc.withError
              ("array function " ++ name ++ " requires first argument to be array type column")
          else qc
        | none =>
          qc.withError
            ("array function " ++ name ++ " requires first argument to be array type column")
      if name = lengthCallName then
        if (a0 :: rest).length ≠ 1 then
          some (.call name (a0 :: rest) t0,
            qc1.withError ("array function " ++ name ++ " takes exactly 1 argument"))
        else some (.call name (a0 :: rest) .Unsigned, qc1)
      else if name = containsCallName then
        if (a0 :: rest).length ≠ 2 then
          some (.call name (a0 :: rest) t0,
            qc1.withError ("array function " ++ name ++ " takes exactly 2 arguments"))
        else some (.call name (a0 :: rest) .Boolean, qc1)
      else
        if (a0 :: rest).length ≠ 2 then
          some (.call name (a0 :: rest) t0,
            qc1.withError ("array function " ++ name ++ " takes exactly 2 arguments"))
        else
          let qc2 :=
            match rest with
            | [.numberLiteral _ _ _] => qc1
            | _ =>
              qc1.withError ("array function " ++ name ++ " takes array type column and an index")
          match vrInfo with
          | some (_, vt) => some (.call name (a0 :: rest) vt, qc2)
          | none => none
  else some (.call name args t0, qc.withError ("unknown function " ++ name))

/-- Embeds the `*expr.Call` case of `QueryContext.Rewrite`: the Go local
`name := strings.ToLower(e.Name)` is passed to the dispatch above. -/
def rewriteCallNode (env : BrokerEnv) (qc : QueryContext) (name0 : String)
    (args : List Expr) (t0 : ExprType) : Option (Expr × QueryContext) :=
  rewriteCallArm env qc (strToLower name0) args t0

/-- The `*expr.Case` case of `QueryContext.Rewrite`: widen the else and then
branches to the highest branch type, cast the when branches to boolean. -/
def rewriteCaseNode (qc : QueryContext) (wts : List (Expr × Expr)) (elseE : Expr) :
    Expr × QueryContext :=
  let highestType :=
    wts.foldl (fun h wt => if (wt.2.type).rank > h.rank then wt.2.type else h) elseE.type
  (.caseE (wts.map (fun wt => (castTo wt.1 .Boolean, castTo wt.2 highestType)))
    (castTo elseE highestType) highestType, qc)

/-- The loop body of `expandINop`: each value becomes a rewritten
`lhs EQ value` node; the Go type assertion `.(*expr.BinaryExpr)` on the
rewritten node panics (`none`) when the rewrite produced a different node
kind.  The Go loop calls `qc.Rewrite` on the synthesized `EQ` node; for an
`EQ` token the four-byte rule and the string-literal restriction never fire,
so that call always reaches the `EQ` arm and is inlined here as
`rewriteEqNeq` (the lemma `rewriteNode_eq_arm` below shows the two agree). -/
def expandINLoop (env : BrokerEnv) (qc : QueryContext) (lhs : Expr)
    (values : List Expr) (acc : Expr) : Option (Expr × QueryContext) :=
  match values with
  | [] => some (acc, qc)
  | v :: rest =>
    match acc with
    | .booleanLiteral _ =>
      match rewriteEqNeq env qc .EQ lhs v with
      | none => none
      | some (.binary o bl br bt, qc1) => expandINLoop env qc1 lhs rest (.binary o bl br bt)
      | some _ => none
    | accE =>
      match rewriteEqNeq env qc .EQ lhs v with
      | none => none
      | some (.binary o bl br bt, qc1) =>
        expandINLoop env qc1 lhs rest (.binary .OR accE (.binary o bl br bt) .UnknownType)
      | some _ => none

/-- Embeds `QueryContext.expandINop`: validates the left side, then expands
the `IN` list (the args of the `Call` on the right) into a left-associated
`OR` chain of rewritten equality nodes, starting from `BooleanLiteral(false)`.
A right side that is not a `Call` sets an error and yields a nil expression
(Go returns a nil `expr.Expr` here). -/
def expandINop (env : BrokerEnv) (qc : QueryContext) (lhs rhs : Expr) :
    Option (Expr × QueryContext) :=
  let qc1 := if lhs.isVarRef then qc
    else qc.withError "lhs of IN or NOT_IN must be a valid column"
  match rhs with
  | .call _ cargs _ => expandINLoop env qc1 lhs cargs (.booleanLiteral false)
  | _ => some (.nilExpr, qc1.withError "only EQ and IN operators are supported for geo fields")

/-- Embeds `QueryContext.Rewrite`: the per-node rewriter.  It strips
parentheses, resolves `VarRef` nodes, types and normalizes unary and binary
operators (including the `IN`/`NOT_IN` expansion), expands macro-style calls
and validates domain rules, dispatching each AST variant to the case
function above.  A `none` result models a Go runtime panic; otherwise the
rewritten node is returned together with the context (whose `Error` slot may
have been set). -/
def rewriteNode (env : BrokerEnv) (qc : QueryContext) (e : Expr) :
    Option (Expr × QueryContext) :=
  match e with
  | .paren child => some (child, qc)
  | .varRef v et tid cid dt ed erd hll => rewriteVarRefNode qc v et tid cid dt ed erd hll
  | .unary op child t0 => some (rewriteUnaryNode qc op child t0)
  | .binary op lhs rhs t0 =>
    match blockNumericOpsForColumnOverFourBytes op [lhs, rhs] with
    | some msg => some (.binary op lhs rhs t0, qc.withError msg)
    | none =>
      if (op ≠ Token.EQ ∧ op ≠ Token.NEQ) ∧ (rhs.isStringLiteral ∨ lhs.isStringLiteral) then
        some (.binary op lhs rhs t0,
          qc.withError "string type only support EQ and NEQ operators")
      else
        match op with
        | .IN => expandINop env qc lhs rhs
        | .NOT_IN =>
          match expandINop env qc lhs rhs with
          | none => none
          | some (ex, qc1) => some (.unary .NOT ex .UnknownType, qc1)
        | _ => rewriteBinaryRest env qc op lhs rhs t0
  | .call name0 args t0 => rewriteCallNode env qc name0 args t0
  | .caseE wts elseE _ => some (rewriteCaseNode qc wts elseE)
  | other => some (other, qc)

/-- On a synthesized `EQ` node the full rewriter agrees with its `EQ` arm:
the four-byte rule and the string-literal restriction never fire for `EQ`. -/
theorem rewriteNode_eq_arm (env : BrokerEnv) (qc : QueryContext) (lhs v : Expr)
    (t : ExprType) :
    rewriteNode env qc (.binary .EQ lhs v t) = rewriteEqNeq env qc .EQ lhs v := by
  simp [rewriteNode, blockNumericOpsForColumnOverFourBytes, Token.code, rewriteBinaryRest]

mutual

/-- Modelled from the spec: `expr.Rewrite`, the generic post-order walker —
children are rewritten before their parent node is handed to
`QueryContext.Rewrite` (`rewriteNode`). -/
def rewriteWalk (env : BrokerEnv) (qc : QueryContext) (e : Expr) :
    Option (Expr × QueryContext) :=
  match e with
  | .binary op l r t =>
    match rewriteWalk env qc l with
    | none => none
    | some (l1, qc1) =>
      match rewriteWalk env qc1 r with
      | none => none
      | some (r1, qc2) => rewriteNode env qc2 (.binary op l1 r1 t)
  | .paren c =>
    match rewriteWalk env qc c with
    | none => none
    | some (c1, qc1) => rewriteNode env qc1 (.paren c1)
  | .call n args t =>
    match rewriteWalkList env qc args with
    | none => none
    | some (args1, qc1) => rewriteNode env qc1 (.call n args1 t)
  | .unary op c t =>
    match rewriteWalk env qc c with
    | none => none
    | some (c1, qc1) => rewriteNode env qc1 (.unary op c1 t)
  | .caseE wts els t =>
    match rewriteWalkPairs env qc wts with
    | none => none
    | some (wts1, qc1) =>
      match rewriteWalk env qc1 els with
      | none => none
      | some (els1, qc2) => rewriteNode env qc2 (.caseE wts1 els1 t)
  | other => rewriteNode env qc other

/-- Post-order walk over an argument list, threading the context. -/
def rewriteWalkList (env : BrokerEnv) (qc : QueryContext) (es : List Expr) :
    Option (List Expr × QueryContext) :=
  match es with
  | [] => some ([], qc)
  | x :: xs =>
    match rewriteWalk env qc x with
    | none => none
    | some (x1, qc1) =>
      match rewriteWalkList env qc1 xs with
      | none => none
      | some (xs1, qc2) => some (x1 :: xs1, qc2)

/-- Post-order walk over when/then pairs, threading the context. -/
def rewriteWalkPairs (env : BrokerEnv) (qc : QueryContext) (ps : List (Expr × Expr)) :
    Option (List (Expr × Expr) × QueryContext) :=
  match ps with
  | [] => some ([], qc)
  | (w, th) :: xs =>
    match rewriteWalk env qc w with
    | none => none
    | some (w1, qc1) =>
      match rewriteWalk env qc1 th with
      | none => none
      | some (th1, qc2) =>
        match rewriteWalkPairs env qc2 xs with
        | none => none
        | some (xs1, qc3) => some ((w1, th1) :: xs1, qc3)

end

/-- Embeds the parse-and-rewrite loop over a list of filter strings — the
body shared verbatim by `processFilters`, the measure-filters loop of
`processMeasures`, and the join-conditions loop of `processJoins`: parse each
string, rewrite it, stop at the first error; unprocessed slots keep the nil
value of the preallocated slice. -/
def parseRewriteFilters (env : BrokerEnv) (qc : QueryContext) (xs : List String) :
    Option (List Expr × QueryContext) :=
  match xs with
  | [] => some ([], qc)
  | s :: rest =>
    match env.parseExpr s with
    | .error msg =>
      some (Expr.nilExpr :: rest.map (fun _ => Expr.nilExpr),
        qc.withError ("Failed to parse filter: " ++ msg))
    | .ok parsed =>
      match rewriteWalk env qc parsed with
      | none => none
      | some (e1, qc1) =>
        if qc1.error.isSome then some (e1 :: rest.map (fun _ => Expr.nilExpr), qc1)
        else
          match parseRewriteFilters env qc1 rest with
          | none => none
          | some (es, qc2) => some (e1 :: es, qc2)

/-- Embeds `QueryContext.processFilters`: parse and rewrite every top-level
filter, then flatten conjunctions with `normalizeAndFilters` (skipped when an
error stopped the loop). -/
def processFilters (env : BrokerEnv) (qc : QueryContext) : Option QueryContext :=
  match parseRewriteFilters env qc qc.aqlQuery.filters with
  | none => none
  | some (fs, qc1) =>
    if qc1.error.isSome then
      some { qc1 with aqlQuery := { qc1.aqlQuery with filtersParsed := fs } }
    else
      some { qc1 with aqlQuery := { qc1.aqlQuery with filtersParsed := normalizeAndFilters fs } }

/-- The loop of `processJoins`: each join's conditions are parsed and
rewritten; a join is written back only after all its conditions succeeded
(the Go early `return` skips the write-back of the current join). -/
def processJoinsLoop (env : BrokerEnv) (qc : QueryContext) (joins : List Join) :
    Option (List Join × QueryContext) :=
  match joins with
  | [] => some ([], qc)
  | j :: rest =>
    match parseRewriteFilters env qc j.conditions with
    | none => none
    | some (cs, qc1) =>
      if qc1.error.isSome then some (j :: rest, qc1)
      else
        match processJoinsLoop env qc1 rest with
        | none => none
        | some (js, qc2) => some ({ j with conditionsParsed := cs } :: js, qc2)

/-- Embeds `QueryContext.processJoins`. -/
def processJoins (env : BrokerEnv) (qc : QueryContext) : Option QueryContext :=
  match processJoinsLoop env qc qc.aqlQuery.joins with
  | none => none
  | some (js, qc1) => some { qc1 with aqlQuery := { qc1.aqlQuery with joins := js } }

/-- The parse/rewrite loop of `processMeasures`: each measure's expression and
filter list are parsed and rewritten; the measure is written back (with its
filters flattened) only when everything succeeded — the Go early `return`
skips the write-back of the current measure. -/
def processMeasuresLoop (env : BrokerEnv) (qc : QueryContext) (ms : List Measure) :
    Option (List Measure × QueryContext) :=
  match ms with
  | [] => some ([], qc)
  | m :: rest =>
    match env.parseExpr m.expr with
    | .error msg => some (m :: rest, qc.withError ("Failed to parse measure: " ++ msg))
    | .ok parsed =>
      match rewriteWalk env qc parsed with
      | none => none
      | some (e1, qc1) =>
        if qc1.error.isSome then some (m :: rest, qc1)
        else
          match parseRewriteFilters env qc1 m.filters with
          | none => none
          | some (fps, qc2) =>
            if qc2.error.isSome then some (m :: rest, qc2)
            else
              match processMeasuresLoop env qc2 rest with
              | none => none
              | some (ms2, qc3) =>
                some (({ m with exprParsed := e1, filtersParsed := normalizeAndFilters fps }) :: ms2, qc3)

/-- Embeds `QueryContext.processMeasures`: run the parse/rewrite loop, then
require exactly one measure; a sole `NumberLiteral` measure flips
`IsNonAggregationQuery` and defaults `Limit` to 1000 when zero; otherwise the
measure must be a `Call` with exactly one argument, named `hll` whenever
`ReturnHLLBinary` is set. -/
def processMeasures (env : BrokerEnv) (qc : QueryContext) : Option QueryContext :=
  match processMeasuresLoop env qc qc.aqlQuery.measures with
  | none => none
  | some (ms, qcL) =>
    let qc1 := { qcL with aqlQuery := { qcL.aqlQuery with measures := ms } }
    if qc1.error.isSome then some qc1
    else
      match ms with
      | [m] =>
        match m.exprParsed with
        | .numberLiteral _ _ _ =>
          let qc2 := { qc1 with isNonAggregationQuery := true }
          if qc2.aqlQuery.limit = 0 then
            some { qc2 with aqlQuery := { qc2.aqlQuery with limit := nonAggregationQueryLimit } }
          else some qc2
        | .call cname cargs _ =>
          if cargs.length ≠ 1 then
            some (qc1.withError "expect one parameter for aggregate function")
          else if qc1.returnHLLBinary = true ∧ cname ≠ hllCallName then
            some (qc1.withError "expect hll aggregate function")
          else some qc1
        | _ => some (qc1.withError "expect aggregate function")
      | _ => some (qc1.withError "expect one measure per query")

/-- The loop body of `getAllColumnsDimension`: keep, in schema order, every
main-table column that is not deleted and not a geo shape, as a `VarRef`
dimension carrying only the column name (the zero values of the other
fields). -/
def getAllColumnsDimensionLoop (cols : List Column) : List Dimension :=
  match cols with
  | [] => []
  | c :: rest =>
    if c.deleted = false ∧ c.typ ≠ DataType.GeoShape then
      { expr := c.name,
        exprParsed := Expr.varRef c.name .UnknownType 0 0 .UnknownDT none [] false }
        :: getAllColumnsDimensionLoop rest
    else getAllColumnsDimensionLoop rest

/-- Embeds `QueryContext.getAllColumnsDimension` (wildcard expansion over the
main table `Tables[0]`; reading an unbound table models as a panic). -/
def getAllColumnsDimension (qc : QueryContext) : Option (List Dimension) :=
  match qc.tables with
  | [] => none
  | t0 :: _ => some (getAllColumnsDimensionLoop t0.columns)

/-- The first loop of `processDimensions`: parse each raw dimension; a
`Wildcard` in a non-aggregation query expands to all main-table columns,
anything else is kept with its parse result; the first parse error stops the
loop. -/
def expandDimsLoop (env : BrokerEnv) (qc : QueryContext) (rawDims : List Dimension) :
    Option (List Dimension × QueryContext) :=
  match rawDims with
  | [] => some ([], qc)
  | d :: rest =>
    match env.parseExpr d.expr with
    | .error msg => some ([], qc.withError ("Failed to parse dimension: " ++ msg))
    | .ok parsed =>
      match parsed with
      | .wildcard =>
        if qc.isNonAggregationQuery then
          match getAllColumnsDimension qc with
          | none => none
          | some cols =>
            match expandDimsLoop env qc rest with
            | none => none
            | some (ds, qc1) => some (cols ++ ds, qc1)
        else
          match expandDimsLoop env qc rest with
          | none => none
          | some (ds, qc1) => some ({ d with exprParsed := Expr.wildcard } :: ds, qc1)
      | p =>
        match expandDimsLoop env qc rest with
        | none => none
        | some (ds, qc1) => some ({ d with exprParsed := p } :: ds, qc1)

/-- The second loop of `processDimensions`: rewrite every dimension and record
the enum reverse dictionary of enum `VarRef` dimensions by final index.  The
loop does not stop on errors (only on panics). -/
def rewriteDimsLoop (env : BrokerEnv) (qc : QueryContext) (idx : Nat)
    (dims : List Dimension) : Option (List Dimension × QueryContext) :=
  match dims with
  | [] => some ([], qc)
  | d :: rest =>
    match rewriteWalk env qc d.exprParsed with
    | none => none
    | some (e1, qc1) =>
      let qc2 :=
        match e1 with
        | .varRef _ _ _ _ _ _ erd _ =>
          if erd.length > 0 then
            { qc1 with dimensionEnumReverseDicts := qc1.dimensionEnumReverseDicts ++ [(idx, erd)] }
          else qc1
        | _ => qc1
      match rewriteDimsLoop env qc2 (idx + 1) rest with
      | none => none
      | some (ds, qc3) => some ({ d with exprParsed := e1 } :: ds, qc3)

/-- Embeds `QueryContext.processDimensions`: reset the dimension list,
preallocate `DimensionVectorIndex` with the pre-expansion length, expand
wildcards, then rewrite every remaining dimension. -/
def processDimensions (env : BrokerEnv) (qc : QueryContext) : Option QueryContext :=
  let rawDims := qc.aqlQuery.dimensions
  let aql0 := { qc.aqlQuery with dimensions := ([] : List Dimension) }
  let qc0 := { qc with aqlQuery := aql0, dimensionVectorIndex := List.replicate rawDims.length 0 }
  match expandDimsLoop env qc0 rawDims with
  | none => none
  | some (ds, qcE) =>
    let qc1 := { qcE with aqlQuery := { qcE.aqlQuery with dimensions := ds } }
    if qc1.error.isSome then some qc1
    else
      match rewriteDimsLoop env qc1 0 qc1.aqlQuery.dimensions with
      | none => none
      | some (ds2, qc2) =>
        some { qc2 with aqlQuery := { qc2.aqlQuery with dimensions := ds2 } }

/-- Modelled from the spec: `common.GetDimensionDataBytes` — the output byte
width of a dimension expression: a `VarRef` contributes its column's storage
width, any other node is sized by its expression type (booleans one byte,
geo points eight, every other resolved or unresolved type four). -/
def getDimensionDataBytes (e : Expr) : Nat :=
  match e with
  | .varRef _ _ _ _ dt _ _ _ => dataTypeBytes dt
  | _ =>
    match e.type with
    | .Boolean => 1
    | .GeoPoint => 8
    | _ => 4

/-- One width-bucket pass of `sortDimensionColumns`: scan dimensions in
original order; a dimension whose data byte width equals the bucket width
gets the next ordered position, and contributes its width to the row bytes
and one slot to the bucket count. -/
def sortPass (byteWidth : Nat) (dims : List Dimension) (originIndex : Nat)
    (dvi : List Nat) (orderedIndex rowBytes count : Nat) :
    List Nat × Nat × Nat × Nat :=
  match dims with
  | [] => (dvi, orderedIndex, rowBytes, count)
  | d :: rest =>
    let dataBytes := getDimensionDataBytes d.exprParsed
    if dataBytes = byteWidth then
      sortPass byteWidth rest (originIndex + 1) (dvi.set originIndex orderedIndex)
        (orderedIndex + 1) (rowBytes + dataBytes) (count + 1)
    else sortPass byteWidth rest (originIndex + 1) dvi orderedIndex rowBytes count

/-- The bucket loop of `sortDimensionColumns`: one `sortPass` per entry of
`NumDimsPerDimWidth`, halving the byte width after each bucket. -/
def sortBuckets (dims : List Dimension) (byteWidth : Nat) (counts : List Nat)
    (dvi : List Nat) (orderedIndex rowBytes : Nat) : List Nat × List Nat × Nat :=
  match counts with
  | [] => ([], dvi, rowBytes)
  | c :: cs =>
    match sortPass byteWidth dims 0 dvi orderedIndex rowBytes 0 with
    | (dvi1, oi1, rb1, delta) =>
      match sortBuckets dims (byteWidth / 2) cs dvi1 oi1 rb1 with
      | (cs1, dvi2, rb2) => ((c + delta) :: cs1, dvi2, rb2)

/-- Embeds `QueryContext.sortDimensionColumns`: reallocate
`DimensionVectorIndex` with the post-expansion length, bucket the dimensions
by byte width starting at `1 << (len(NumDimsPerDimWidth)-1)`, then add one
validity byte per dimension to `DimRowBytes`. -/
def sortDimensionColumns (qc : QueryContext) : QueryContext :=
  let numDimensions := qc.aqlQuery.dimensions.length
  let dvi0 := List.replicate numDimensions 0
  let byteWidth := 2 ^ (qc.numDimsPerDimWidth.length - 1)
  match sortBuckets qc.aqlQuery.dimensions byteWidth qc.numDimsPerDimWidth dvi0 0
      qc.dimRowBytes with
  | (counts1, dvi1, rb1) =>
    { qc with numDimsPerDimWidth := counts1, dimensionVectorIndex := dvi1, dimRowBytes := rb1 + numDimensions }

/-- The join loop of `readSchema`: resolve each join table, derive its alias
(the join's alias, defaulting to the table name), and reject redefined
aliases. -/
def readSchemaJoins (env : BrokerEnv) (qc : QueryContext) (i : Nat)
    (joins : List Join) : QueryContext :=
  match joins with
  | [] => qc
  | j :: rest =>
    match env.getSchema j.table with
    | .error _ => qc.withError ("unknown join table " ++ j.table)
    | .ok schema =>
      let al := if j.joinAlias = "" then j.table else j.joinAlias
      match lookupStr qc.tableIDByAlias al with
      | some _ => qc.withError ("table alias " ++ al ++ " is redefined")
      | none =>
        readSchemaJoins env
          { qc with tables := qc.tables ++ [schema], tableIDByAlias := qc.tableIDByAlias ++ [(al, 1 + i)] }
          (i + 1) rest

/-- Embeds `QueryContext.readSchema` (lock bookkeeping omitted; the Go
`Tables` slice is nil-preallocated and filled in place — it is built
append-wise here, a read of an unfilled slot modelling as a panic). -/
def readSchema (env : BrokerEnv) (qc : QueryContext) : QueryContext :=
  match env.getSchema qc.aqlQuery.table with
  | .error _ => qc.withError ("unknown main table " ++ qc.aqlQuery.table)
  | .ok schema =>
    readSchemaJoins env
      { qc with tables := [schema], tableIDByAlias := [(qc.aqlQuery.table, 0)] }
      0 qc.aqlQuery.joins

/-- Embeds `NewQueryContext` (zero values for everything except the query and
the HLL flag; the spec models `NumDimsPerDimWidth` as four zeroed buckets). -/
def NewQueryContext (aql : AQLQuery) (returnHLLBinary : Bool) : QueryContext :=
  { aqlQuery := aql, isNonAggregationQuery := false, returnHLLBinary := returnHLLBinary,
    error := none, tables := [], tableIDByAlias := [],
    numDimsPerDimWidth := [0, 0, 0, 0], dimensionEnumReverseDicts := [],
    dimensionVectorIndex := [], dimRowBytes := 0 }

/-- Embeds `QueryContext.Compile`: the fixed pipeline
joins → measures → dimensions → filters → dimension layout, the first error
short-circuiting every later stage (schema lock release is not represented). -/
def Compile (env : BrokerEnv) (qc : QueryContext) : Option QueryContext :=
  let qcS := readSchema env qc
  if qcS.error.isSome then some qcS
  else
    match processJoins env qcS with
    | none => none
    | some qcJ =>
      if qcJ.error.isSome then some qcJ
      else
        match processMeasures env qcJ with
        | none => none
        | some qcM =>
          if qcM.error.isSome then some qcM
          else
            match processDimensions env qcM with
            | none => none
            | some qcD =>
              if qcD.error.isSome then some qcD
              else
                match processFilters env qcD with
                | none => none
                | some qcF =>
                  if qcF.error.isSome then some qcF
                  else some (sortDimensionColumns qcF)

/-! ### Properties of `normalizeAndFilters` -/

theorem normGo_step_and (filters : List Expr) (i : Nat) (h : i < filters.length)
    (l r : Expr) (t : ExprType) (hm : filters[i] = Expr.binary .AND l r t) :
    normalizeAndFiltersGo filters i = normalizeAndFiltersGo (filters.set i l ++ [r]) i := by
  rw [normalizeAndFiltersGo.eq_def, dif_pos h]
  split
  · rename_i l' r' t' heq
    rw [hm] at heq
    simp only [Expr.binary.injEq] at heq
    obtain ⟨-, rfl, rfl, -⟩ := heq
    rfl
  · rename_i hno
    exact absurd hm (hno l r t)

theorem normGo_step_not_and (filters : List Expr) (i : Nat) (h : i < filters.length)
    (hno : (filters[i]).isTopAnd = false) :
    normalizeAndFiltersGo filters i = normalizeAndFiltersGo filters (i + 1) := by
  rw [normalizeAndFiltersGo.eq_def, dif_pos h]
  split
  · rename_i l r t heq
    rw [heq] at hno
    simp [Expr.isTopAnd] at hno
  · rfl

theorem normGo_halt (filters : List Expr) (i : Nat) (h : ¬ i < filters.length) :
    normalizeAndFiltersGo filters i = filters := by
  rw [normalizeAndFiltersGo.eq_def, dif_neg h]

theorem isTopAnd_false_of_not_and (e : Expr)
    (h : ∀ l r t, e = Expr.binary .AND l r t → False) : e.isTopAnd = false := by
  cases e with
  | binary op l r t =>
    cases op
    case AND => exact (h l r t rfl).elim
    all_goals rfl
  | _ => rfl

theorem normGo_no_topAnd : ∀ (filters : List Expr) (i : Nat),
    (∀ j (_ : j < filters.length), j < i → (filters[j]).isTopAnd = false) →
    ∀ e ∈ normalizeAndFiltersGo filters i, e.isTopAnd = false := by
  intro fs i
  induction fs, i using normalizeAndFiltersGo.induct with
  | case1 fs i h l r t hm ih =>
    intro hpre
    rw [normGo_step_and fs i h l r t hm]
    apply ih
    intro j hj hji
    have hjf : j < fs.length := by
      have := List.length_set fs i l
      simp at hj
      omega
    have : (fs.set i l ++ [r])[j] = fs[j] := by
      rw [List.getElem_append_left (by simpa using hjf)]
      rw [List.getElem_set_ne (by omega)]
    rw [this]
    exact hpre j hjf hji
  | case2 fs i h hno ih =>
    intro hpre
    rw [normGo_step_not_and fs i h (isTopAnd_false_of_not_and _ (fun l r t hh => hno l r t hh))]
    apply ih
    intro j hj hji
    rcases Nat.lt_or_ge j i with hlt | hge
    · exact hpre j hj hlt
    · have hji2 : j = i := by omega
      subst hji2
      exact isTopAnd_false_of_not_and _ (fun l r t hh => hno l r t hh)
  | case3 fs i h =>
    intro hpre e he
    rw [normGo_halt fs i h] at he
    obtain ⟨j, hj, rfl⟩ := List.getElem_of_mem he
    exact hpre j hj (by omega)

theorem normGo_id : ∀ (filters : List Expr) (i : Nat),
    (∀ j (_ : j < filters.length), i ≤ j → (filters[j]).isTopAnd = false) →
    normalizeAndFiltersGo filters i = filters := by
  intro fs i
  induction fs, i using normalizeAndFiltersGo.induct with
  | case1 fs i h l r t hm ih =>
    intro hall
    have := hall i h (Nat.le_refl i)
    rw [hm] at this
    simp [Expr.isTopAnd] at this
  | case2 fs i h hno ih =>
    intro hall
    rw [normGo_step_not_and fs i h (hall i h (Nat.le_refl i))]
    apply ih
    intro j hj hij
    exact hall j hj (by omega)
  | case3 fs i h =>
    intro _
    exact normGo_halt fs i h

theorem normalizeAndFilters_no_topAnd (fs : List Expr) :
    ∀ e ∈ normalizeAndFilters fs, e.isTopAnd = false :=
  normGo_no_topAnd fs 0 (by intro j hj hji; omega)

/-- **C10.** `normalizeAndFilters` is idempotent, and its output contains no
element whose top-level node is an `AND` binary expression. -/
theorem claim10_normalize_idempotent_flat (fs : List Expr) :
    normalizeAndFilters (normalizeAndFilters fs) = normalizeAndFilters fs ∧
    ∀ e ∈ normalizeAndFilters fs, e.isTopAnd = false := by
  constructor
  · show normalizeAndFiltersGo (normalizeAndFilters fs) 0 = normalizeAndFilters fs
    apply normGo_id
    intro j hj _
    exact normalizeAndFilters_no_topAnd fs _ (List.getElem_mem hj)
  · exact normalizeAndFilters_no_topAnd fs

/-- **C5 (counterexample).** With `p,q,r,s = 1,2,3,4`, `normalizeAndFilters`
applied to `[AND(AND(p,q),r), s]` yields `[p, s, r, q]` — the trailing filter
`s` stays in place while the extracted operands are appended — and not the
claimed `[p, r, q, s]`. -/
theorem claim5_counterexample :
    (normalizeAndFilters
      [Expr.binary .AND
        (Expr.binary .AND (Expr.numberLiteral 1 "1" .Unsigned)
          (Expr.numberLiteral 2 "2" .Unsigned) .UnknownType)
        (Expr.numberLiteral 3 "3" .Unsigned) .UnknownType,
       Expr.numberLiteral 4 "4" .Unsigned]
      = [Expr.numberLiteral 1 "1" .Unsigned, Expr.numberLiteral 4 "4" .Unsigned,
         Expr.numberLiteral 3 "3" .Unsigned, Expr.numberLiteral 2 "2" .Unsigned]) ∧
    ¬ (normalizeAndFilters
      [Expr.binary .AND
        (Expr.binary .AND (Expr.numberLiteral 1 "1" .Unsigned)
          (Expr.numberLiteral 2 "2" .Unsigned) .UnknownType)
        (Expr.numberLiteral 3 "3" .Unsigned) .UnknownType,
       Expr.numberLiteral 4 "4" .Unsigned]
      = [Expr.numberLiteral 1 "1" .Unsigned, Expr.numberLiteral 3 "3" .Unsigned,
         Expr.numberLiteral 2 "2" .Unsigned, Expr.numberLiteral 4 "4" .Unsigned]) := by
  have h : normalizeAndFilters
      [Expr.binary .AND
        (Expr.binary .AND (Expr.numberLiteral 1 "1" .Unsigned)
          (Expr.numberLiteral 2 "2" .Unsigned) .UnknownType)
        (Expr.numberLiteral 3 "3" .Unsigned) .UnknownType,
       Expr.numberLiteral 4 "4" .Unsigned]
      = [Expr.numberLiteral 1 "1" .Unsigned, Expr.numberLiteral 4 "4" .Unsigned,
         Expr.numberLiteral 3 "3" .Unsigned, Expr.numberLiteral 2 "2" .Unsigned] := by
    show normalizeAndFiltersGo _ 0 = _
    rw [normGo_step_and _ 0 (by simp)
      (Expr.binary .AND (Expr.numberLiteral 1 "1" .Unsigned)
        (Expr.numberLiteral 2 "2" .Unsigned) .UnknownType)
      (Expr.numberLiteral 3 "3" .Unsigned) .UnknownType rfl]
    simp only [List.set_cons_zero, List.cons_append, List.nil_append]
    rw [normGo_step_and _ 0 (by simp) (Expr.numberLiteral 1 "1" .Unsigned)
      (Expr.numberLiteral 2 "2" .Unsigned) .UnknownType rfl]
    simp only [List.set_cons_zero, List.cons_append, List.nil_append]
    apply normGo_id
    intro j hj _
    simp at hj
    interval_cases j <;> rfl
  refine ⟨h, ?_⟩
  rw [h]
  simp

/-- **C5 (amended).** Applying `normalizeAndFilters` to the filter list
`[AND(AND(p, q), r), s]`, where `p, q, r, s` are non-`AND` expressions,
yields exactly the list `[p, s, r, q]`: the left `AND` operand replaces the
element in place while the right operand is appended at the end, so the
untouched tail `s` precedes the extracted `r` and `q`. -/
theorem claim5_and_flattening (p q r s : Expr)
    (hp : p.isTopAnd = false) (hq : q.isTopAnd = false)
    (hr : r.isTopAnd = false) (hs : s.isTopAnd = false) :
    normalizeAndFilters
      [Expr.binary .AND (Expr.binary .AND p q .UnknownType) r .UnknownType, s]
      = [p, s, r, q] := by
  show normalizeAndFiltersGo _ 0 = _
  rw [normGo_step_and _ 0 (by simp) (Expr.binary .AND p q .UnknownType) r .UnknownType rfl]
  simp only [List.set_cons_zero, List.cons_append, List.nil_append]
  rw [normGo_step_and _ 0 (by simp) p q .UnknownType rfl]
  simp only [List.set_cons_zero, List.cons_append, List.nil_append]
  apply normGo_id
  intro j hj _
  simp at hj
  interval_cases j
  · exact hp
  · exact hs
  · exact hr
  · exact hq

/-- Witness for the amended C5 at `p,q,r,s = 1,2,3,4`. -/
theorem claim5_and_flattening_witness :
    normalizeAndFilters
      [Expr.binary .AND
        (Expr.binary .AND (Expr.numberLiteral 1 "one" .Unsigned)
          (Expr.numberLiteral 2 "two" .Unsigned) .UnknownType)
        (Expr.numberLiteral 3 "three" .Unsigned) .UnknownType,
       Expr.numberLiteral 4 "four" .Unsigned]
      = [Expr.numberLiteral 1 "one" .Unsigned, Expr.numberLiteral 4 "four" .Unsigned,
         Expr.numberLiteral 3 "three" .Unsigned, Expr.numberLiteral 2 "two" .Unsigned] :=
  claim5_and_flattening _ _ _ _ rfl rfl rfl rfl

/-! ### Concrete fixtures for closed runs -/

/-- An external environment whose collaborators always fail (the concrete
inputs below never consult them). -/
def envNull : BrokerEnv :=
  { parseExpr := fun _ => .error "unused",
    getSchema := fun _ => .error "unused",
    tzOffsetNow := fun _ => .error "unused",
    geoPointFromString := fun _ => .error "unused" }

/-- An empty query. -/
def aqlNull : AQLQuery :=
  { table := "t", joins := [], measures := [], dimensions := [], filters := [],
    filtersParsed := [], limit := 0, supportingMeasures := [],
    supportingDimensions := [] }

/-- A minimal error-free context for concrete per-node rewrites. -/
def qcNull : QueryContext := NewQueryContext aqlNull false

/-- A resolved `VarRef` over a `Uint16` enum column `city` with dictionary
`SF ↦ 0, NYC ↦ 1`. -/
def cityVar : Expr :=
  .varRef "city" .Unsigned 0 1 .Uint16 (some [("SF", 0), ("NYC", 1)]) ["SF", "NYC"] false

/-! ### C9: the four-byte numeric-operand rule -/

theorem block4_range_iff (t : Token) :
    (t = Token.UNARY_MINUS ∨ t = Token.BITWISE_NOT ∨
      (Token.ADD.code ≤ t.code ∧ t.code ≤ Token.BITWISE_LEFT_SHIFT.code)) ↔
    (t = Token.UNARY_MINUS ∨ t = Token.BITWISE_NOT ∨ t = Token.ADD ∨ t = Token.SUB ∨
      t = Token.MUL ∨ t = Token.DIV ∨ t = Token.MOD ∨ t = Token.BITWISE_AND ∨
      t = Token.BITWISE_OR ∨ t = Token.BITWISE_XOR ∨ t = Token.BITWISE_LEFT_SHIFT) := by
  cases t <;> decide

/-- **C9.** The four-byte check returns an error exactly when the operator is
`UNARY_MINUS`, `BITWISE_NOT`, or one of the nine binary operators in the
token range `[ADD .. BITWISE_LEFT_SHIFT]` (`ADD`, `SUB`, `MUL`, `DIV`, `MOD`,
`BITWISE_AND`, `BITWISE_OR`, `BITWISE_XOR`, `BITWISE_LEFT_SHIFT` — not
`BITWISE_RIGHT_SHIFT`), and some operand is a `VarRef` whose data type is
wider than four bytes. -/
theorem claim9_block4_iff (t : Token) (es : List Expr) :
    (blockNumericOpsForColumnOverFourBytes t es).isSome = true ↔
      ((t = Token.UNARY_MINUS ∨ t = Token.BITWISE_NOT ∨ t = Token.ADD ∨ t = Token.SUB ∨
        t = Token.MUL ∨ t = Token.DIV ∨ t = Token.MOD ∨ t = Token.BITWISE_AND ∨
        t = Token.BITWISE_OR ∨ t = Token.BITWISE_XOR ∨ t = Token.BITWISE_LEFT_SHIFT) ∧
       ∃ e ∈ es, ∃ v ty tid cid dt ed erd hll,
         e = Expr.varRef v ty tid cid dt ed erd hll ∧ 4 < dataTypeBytes dt) := by
  rw [← block4_range_iff]
  unfold blockNumericOpsForColumnOverFourBytes
  split
  · rename_i hcond
    split
    · rename_i hany
      apply iff_of_true rfl
      refine ⟨hcond, ?_⟩
      rw [List.any_eq_true] at hany
      obtain ⟨e, he, hf⟩ := hany
      refine ⟨e, he, ?_⟩
      cases e <;> simp at hf
      rename_i v ty tid cid dt ed erd hll
      exact ⟨v, ty, tid, cid, dt, ed, erd, hll, rfl, hf⟩
    · rename_i hany
      apply iff_of_false (by simp)
      rintro ⟨-, e, he, v, ty, tid, cid, dt, ed, erd, hll, rfl, hdt⟩
      exact hany (List.any_eq_true.mpr ⟨_, he, by simp [hdt]⟩)
  · rename_i hcond
    apply iff_of_false (by simp)
    rintro ⟨hc, -⟩
    exact hcond hc

/-! ### C4: enum-string translation on EQ/NEQ -/

/-- **C4.** For every `EQ` or `NEQ` node whose left side is a `VarRef`
carrying a non-nil enum dictionary and whose right side is a
`StringLiteral`, `Rewrite` replaces the right side with an `Unsigned`
`NumberLiteral` holding the dictionary's value for that string — `-1` when
the string is absent — without setting any error. -/
theorem claim4_enum_translation (env : BrokerEnv) (qc : QueryContext)
    (op : Token) (hop : op = Token.EQ ∨ op = Token.NEQ)
    (v : String) (ty : ExprType) (tid cid : Int) (dt : DataType)
    (d : List (String × Int)) (erd : List String) (hll : Bool)
    (s : String) (t0 : ExprType) :
    rewriteNode env qc
      (.binary op (.varRef v ty tid cid dt (some d) erd hll) (.stringLiteral s) t0)
      = some (.binary op (.varRef v ty tid cid dt (some d) erd hll)
          (.numberLiteral ((lookupStr d s).getD (-1)) "" .Unsigned) .Boolean, qc) := by
  rcases hop with rfl | rfl <;>
    simp [rewriteNode, blockNumericOpsForColumnOverFourBytes, Token.code, Expr.isVarRef,
      Expr.isStringLiteral, Expr.type, ExprType.rank, rewriteBinaryRest, rewriteEqNeq]

/-- Witness for C4: `city = 'XYZ'` with `XYZ` absent from the dictionary
translates to `NumberLiteral(-1, Unsigned)` with no error. -/
theorem claim4_enum_translation_witness :
    rewriteNode envNull qcNull
      (.binary .EQ
        (.varRef "city" .Unsigned 0 1 .Uint16 (some [("SF", 0), ("NYC", 1)])
          ["SF", "NYC"] false)
        (.stringLiteral "XYZ") .UnknownType)
      = some (.binary .EQ
          (.varRef "city" .Unsigned 0 1 .Uint16 (some [("SF", 0), ("NYC", 1)])
            ["SF", "NYC"] false)
          (.numberLiteral (-1) "" .Unsigned) .Boolean, qcNull) := by
  have h := claim4_enum_translation envNull qcNull Token.EQ (Or.inl rfl)
    "city" .Unsigned 0 1 .Uint16 [("SF", 0), ("NYC", 1)] ["SF", "NYC"] false
    "XYZ" .UnknownType
  simpa [lookupStr] using h

/-! ### C6: empty IN / NOT_IN lists -/

theorem isStringLiteral_false_of_isVarRef (e : Expr) (h : e.isVarRef = true) :
    e.isStringLiteral = false := by
  cases e <;> first | rfl | simp [Expr.isVarRef] at h

theorem isStringLiteral_call (n : String) (a : List Expr) (t : ExprType) :
    (Expr.call n a t).isStringLiteral = false := rfl

/-- **C6 (counterexample).** On a `NOT_IN` node with an empty list, `Rewrite`
returns the node `UnaryExpr(NOT, BooleanLiteral(false))` — not the claimed
`BooleanLiteral(true)`. -/
theorem claim6_counterexample :
    (rewriteNode envNull qcNull
      (.binary .NOT_IN cityVar (.call "list" [] .UnknownType) .UnknownType)).map Prod.fst
      = some (.unary .NOT (.booleanLiteral false) .UnknownType) ∧
    (rewriteNode envNull qcNull
      (.binary .NOT_IN cityVar (.call "list" [] .UnknownType) .UnknownType)).map Prod.fst
      ≠ some (.booleanLiteral true) := by
  have h : rewriteNode envNull qcNull
      (.binary .NOT_IN cityVar (.call "list" [] .UnknownType) .UnknownType)
      = some (.unary .NOT (.booleanLiteral false) .UnknownType, qcNull) := by
    simp [rewriteNode, blockNumericOpsForColumnOverFourBytes, Token.code, cityVar,
      Expr.isVarRef, Expr.isStringLiteral, expandINop, expandINLoop]
  rw [h]
  simp

/-- **C6 (amended).** For every `IN` node whose right side is a `Call` with an
empty argument list and whose left side is a `VarRef`, `Rewrite` returns
`BooleanLiteral(false)`; the corresponding `NOT_IN` node returns
`UnaryExpr(NOT, BooleanLiteral(false))` (with unknown type) — the negation is
kept as a `NOT` wrapper around the `false` literal, not folded to
`BooleanLiteral(true)`. -/
theorem claim6_empty_in (env : BrokerEnv) (qc : QueryContext) (lhs : Expr)
    (hl : lhs.isVarRef = true) (cn : String) (ct t0 : ExprType) :
    rewriteNode env qc (.binary .IN lhs (.call cn [] ct) t0)
      = some (.booleanLiteral false, qc) ∧
    rewriteNode env qc (.binary .NOT_IN lhs (.call cn [] ct) t0)
      = some (.unary .NOT (.booleanLiteral false) .UnknownType, qc) := by
  have hs := isStringLiteral_false_of_isVarRef lhs hl
  have hb : blockNumericOpsForColumnOverFourBytes Token.IN [lhs, .call cn [] ct] = none := by
    unfold blockNumericOpsForColumnOverFourBytes
    simp [Token.code]
  have hb2 : blockNumericOpsForColumnOverFourBytes Token.NOT_IN [lhs, .call cn [] ct] = none := by
    unfold blockNumericOpsForColumnOverFourBytes
    simp [Token.code]
  constructor
  · simp [rewriteNode, hb, hs, expandINop, expandINLoop, hl, isStringLiteral_call]
  · simp [rewriteNode, hb2, hs, expandINop, expandINLoop, hl, isStringLiteral_call]

/-- Witness for the amended C6 at a concrete enum column. -/
theorem claim6_empty_in_witness :
    rewriteNode envNull qcNull
      (.binary .IN cityVar (.call "list" [] .UnknownType) .UnknownType)
      = some (.booleanLiteral false, qcNull) ∧
    rewriteNode envNull qcNull
      (.binary .NOT_IN cityVar (.call "list" [] .UnknownType) .UnknownType)
      = some (.unary .NOT (.booleanLiteral false) .UnknownType, qcNull) :=
  claim6_empty_in envNull qcNull cityVar (by rfl) "list" .UnknownType .UnknownType

/-! ### C2: panics in the EQ string path and the IN expansion -/

/-- **C2.** `Rewrite` is not total: it panics (nil-pointer dereference) on an
`EQ` node with a `StringLiteral` on the right and no `VarRef` on the left
(`1 = 'a'`), and panics (failed `.(*expr.BinaryExpr)` type assertion inside
`expandINop`) when an `IN` list element rewrites to a non-`BinaryExpr` node
(`city IN (true)` rewrites the element to `IS_TRUE(city)`), instead of
setting `ctx.Error` and returning the node unchanged. -/
theorem claim2_rewrite_panics :
    rewriteNode envNull qcNull
      (.binary .EQ (.numberLiteral 1 "1" .Unsigned) (.stringLiteral "a") .UnknownType)
      = none ∧
    rewriteNode envNull qcNull
      (.binary .IN cityVar (.call "list" [.booleanLiteral true] .UnknownType) .UnknownType)
      = none := by
  constructor
  · simp [rewriteNode, blockNumericOpsForColumnOverFourBytes, Token.code, Expr.isVarRef,
      Expr.isStringLiteral, Expr.type, ExprType.rank, castTo, rewriteBinaryRest, rewriteEqNeq]
  · simp [rewriteNode, blockNumericOpsForColumnOverFourBytes, Token.code, cityVar,
      Expr.isVarRef, Expr.isStringLiteral, Expr.type, ExprType.rank, castTo,
      expandINop, expandINLoop, rewriteEqNeq]

/-! ### C7: wildcard expansion in non-aggregation queries -/

theorem getAllColumnsDimensionLoop_eq (cols : List Column) :
    getAllColumnsDimensionLoop cols =
      (cols.filter (fun c => c.deleted = false ∧ c.typ ≠ DataType.GeoShape)).map
        (fun c => ⟨c.name, Expr.varRef c.name .UnknownType 0 0 .UnknownDT none [] false⟩) := by
  induction cols with
  | nil => rfl
  | cons c rest ih =>
    by_cases hc : (c.deleted = false ∧ c.typ ≠ DataType.GeoShape)
    · simp [getAllColumnsDimensionLoop, List.filter_cons, hc, ih]
    · simp [getAllColumnsDimensionLoop, List.filter_cons, hc, ih]

/-- **C7.** In a non-aggregation query, the dimension-expansion loop replaces
every `Wildcard` dimension by one `VarRef` dimension per column of the main
table `Tables[0]` that is not deleted and not of `GeoShape` type, in the
schema's column order (deleted and `GeoShape` columns are skipped); every
non-wildcard dimension is kept in place with its parse result. -/
theorem claim7_wildcard_expansion (env : BrokerEnv) (qc : QueryContext)
    (hna : qc.isNonAggregationQuery = true)
    (t0 : TableSchema) (rest : List TableSchema) (ht : qc.tables = t0 :: rest)
    (rawDims : List Dimension)
    (hparse : ∀ d ∈ rawDims, ∃ p, env.parseExpr d.expr = .ok p) :
    expandDimsLoop env qc rawDims = some
      (rawDims.flatMap (fun d =>
        match env.parseExpr d.expr with
        | .ok .wildcard =>
          (t0.columns.filter (fun c => c.deleted = false ∧ c.typ ≠ DataType.GeoShape)).map
            (fun c => (⟨c.name, Expr.varRef c.name .UnknownType 0 0 .UnknownDT none [] false⟩ : Dimension))
        | .ok p => [{ d with exprParsed := p }]
        | .error _ => []), qc) := by
  induction rawDims with
  | nil => rfl
  | cons d ds ih =>
    obtain ⟨p, hp⟩ := hparse d (List.mem_cons_self d ds)
    have ihds := ih (fun x hx => hparse x (List.mem_cons_of_mem d hx))
    rw [List.flatMap_cons]
    cases p with
    | wildcard =>
      simp only [expandDimsLoop, hp, hna, if_true, getAllColumnsDimension, ht,
        getAllColumnsDimensionLoop_eq, ihds]
    | numberLiteral i s t => simp only [expandDimsLoop, hp, ihds]; rfl
    | stringLiteral s => simp only [expandDimsLoop, hp, ihds]; rfl
    | booleanLiteral b => simp only [expandDimsLoop, hp, ihds]; rfl
    | geopointLiteral s => simp only [expandDimsLoop, hp, ihds]; rfl
    | varRef a b c dd e f g h => simp only [expandDimsLoop, hp, ihds]; rfl
    | unary o c t => simp only [expandDimsLoop, hp, ihds]; rfl
    | binary o l r t => simp only [expandDimsLoop, hp, ihds]; rfl
    | call n a t => simp only [expandDimsLoop, hp, ihds]; rfl
    | caseE w e t => simp only [expandDimsLoop, hp, ihds]; rfl
    | paren c => simp only [expandDimsLoop, hp, ihds]; rfl
    | nilExpr => simp only [expandDimsLoop, hp, ihds]; rfl

/-- A main-table schema with columns
`[a Uint32, b GeoShape (deleted), c Uint8, d GeoShape]` for the wildcard
scenario. -/
def schemaWild : TableSchema :=
  { columns := [⟨"a", .Uint32, false, false⟩, ⟨"b", .GeoShape, true, false⟩,
      ⟨"c", .Uint8, false, false⟩, ⟨"d", .GeoShape, false, false⟩],
    columnIDs := [("a", 0), ("b", 1), ("c", 2), ("d", 3)],
    valueTypeByColumn := [.Uint32, .GeoShape, .Uint8, .GeoShape],
    enumDicts := [] }

/-- A parser oracle for the wildcard scenario. -/
def envWild : BrokerEnv :=
  { parseExpr := fun s =>
      if s = "*" then .ok .wildcard
      else if s = "1" then .ok (.numberLiteral 1 "1" .Unsigned)
      else if s = "a" then .ok (.varRef "a" .UnknownType (-1) (-1) .UnknownDT none [] false)
      else .error "parse error",
    getSchema := fun s => if s = "t" then .ok schemaWild else .error "unknown table",
    tzOffsetNow := fun _ => .error "unused",
    geoPointFromString := fun _ => .error "unused" }

/-- The wildcard-scenario query: one literal measure and the `*` dimension. -/
def aqlWild : AQLQuery :=
  { table := "t", joins := [],
    measures := [⟨"1", .numberLiteral 1 "1" .Unsigned, [], []⟩],
    dimensions := [⟨"*", .nilExpr⟩], filters := [], filtersParsed := [],
    limit := 1000, supportingMeasures := [], supportingDimensions := [] }

/-- A bound non-aggregation context over `schemaWild` whose raw dimension list
is the single wildcard. -/
def qcWild : QueryContext :=
  { aqlQuery := aqlWild,
    isNonAggregationQuery := true, returnHLLBinary := false, error := none,
    tables := [schemaWild], tableIDByAlias := [("t", 0)],
    numDimsPerDimWidth := [0, 0, 0, 0], dimensionEnumReverseDicts := [],
    dimensionVectorIndex := [0], dimRowBytes := 0 }

/-- Witness for C7: over main-table columns
`[a Uint32, b GeoShape (deleted), c Uint8, d GeoShape]`, the wildcard expands
to the dimensions `[a, c]` (`b` deleted and `d` GeoShape are skipped). -/
theorem claim7_wildcard_expansion_witness :
    expandDimsLoop envWild qcWild [⟨"*", .nilExpr⟩] = some
      ([⟨"a", Expr.varRef "a" .UnknownType 0 0 .UnknownDT none [] false⟩,
        ⟨"c", Expr.varRef "c" .UnknownType 0 0 .UnknownDT none [] false⟩],
        qcWild) := by
  have h := claim7_wildcard_expansion envWild qcWild rfl schemaWild [] rfl
    [⟨"*", .nilExpr⟩]
    (by intro d hd; simp at hd; subst hd; exact ⟨.wildcard, by rfl⟩)
  rw [h]
  rfl

/-! ### C3: `processMeasures` error conditions -/

/-- Modelled from the spec (the claim’s conditions (b) and (c) over the sole
measure’s parsed expression): neither a `NumberLiteral` nor a `Call` with
exactly one argument, or `ReturnHLLBinary` demands the `hll` call. -/
def soleMeasureBad (hll : Bool) (e : Expr) : Bool :=
  match e with
  | .numberLiteral _ _ _ => false
  | .call cname cargs _ => cargs.length != 1 || (hll && cname != hllCallName)
  | _ => true

/-- A parser oracle for the C3 scenario: the only parsable measure text is
`count(x)`. -/
def env3 : BrokerEnv :=
  { parseExpr := fun s =>
      if s = "count(x)" then
        .ok (.call "count" [.varRef "x" .UnknownType (-1) (-1) .UnknownDT none [] false] .UnknownType)
      else .error "parse error",
    getSchema := fun s => if s = "t" then .ok schemaWild else .error "unknown table",
    tzOffsetNow := fun _ => .error "unused",
    geoPointFromString := fun _ => .error "unused" }

/-- The C3 query: the single measure `count(x)` (whose column `x` is not in
the schema) and zero limit. -/
def aql3 : AQLQuery :=
  { table := "t", joins := [],
    measures := [⟨"count(x)", .nilExpr, [], []⟩],
    dimensions := [], filters := [], filtersParsed := [],
    limit := 0, supportingMeasures := [], supportingDimensions := [] }

/-- A bound aggregation context over `schemaWild` for the C3 scenario. -/
def qc3 : QueryContext :=
  { aqlQuery := aql3,
    isNonAggregationQuery := false, returnHLLBinary := false, error := none,
    tables := [schemaWild], tableIDByAlias := [("t", 0)],
    numDimsPerDimWidth := [0, 0, 0, 0], dimensionEnumReverseDicts := [],
    dimensionVectorIndex := [], dimRowBytes := 0 }

/-- Rewriting the unresolvable `x` column sets the error and returns the node
unchanged. -/
theorem c3varX : rewriteWalk env3 qc3 (.varRef "x" .UnknownType (-1) (-1) .UnknownDT none [] false) = some (.varRef "x" .UnknownType (-1) (-1) .UnknownDT none [] false, qc3.withError "unknown column x for table alias t") := by
  simp only [rewriteWalk]
  rfl

/-- The same, through the argument-list walk. -/
theorem c3listX : rewriteWalkList env3 qc3 [.varRef "x" .UnknownType (-1) (-1) .UnknownDT none [] false] = some ([.varRef "x" .UnknownType (-1) (-1) .UnknownDT none [] false], qc3.withError "unknown column x for table alias t") := by
  simp only [rewriteWalkList, c3varX]

/-- Walking `count(x)` keeps the child error; the `count` call itself is
rewritten to `Unsigned` without touching the error. -/
theorem c3callX : rewriteWalk env3 qc3 (.call "count" [.varRef "x" .UnknownType (-1) (-1) .UnknownDT none [] false] .UnknownType) = some (.call "count" [.varRef "x" .UnknownType (-1) (-1) .UnknownDT none [] false] .Unsigned, qc3.withError "unknown column x for table alias t") := by
  simp only [rewriteWalk, c3listX]
  rfl

/-- The measure loop stops at the rewrite error, leaving the measure slot
unwritten. -/
theorem c3loop : (processMeasuresLoop env3 qc3 qc3.aqlQuery.measures) = some ([⟨"count(x)", .nilExpr, [], []⟩], qc3.withError "unknown column x for table alias t") := by
  show (match rewriteWalk env3 qc3 (.call "count" [.varRef "x" .UnknownType (-1) (-1) .UnknownDT none [] false] .UnknownType) with
    | none => none
    | some (e1, qc1) =>
      if qc1.error.isSome then some ([(⟨"count(x)", .nilExpr, [], []⟩ : Measure)], qc1)
      else match parseRewriteFilters env3 qc1 [] with
        | none => none
        | some (fps, qc2) =>
          if qc2.error.isSome then some ([(⟨"count(x)", .nilExpr, [], []⟩ : Measure)], qc2)
          else match processMeasuresLoop env3 qc2 [] with
            | none => none
            | some (ms2, qc3x) => some (({(⟨"count(x)", .nilExpr, [], []⟩ : Measure) with exprParsed := e1, filtersParsed := normalizeAndFilters fps}) :: ms2, qc3x)) = _
  rw [c3callX]
  rfl

/-- C3 counterexample: on the sole measure `count(x)` over a schema lacking
column `x`, `processMeasures` finishes with the error set (the rewrite of the
measure expression failed), although the measure count is 1, the parsed
measure expression is a `Call` with exactly one argument and
`ReturnHLLBinary` is off — none of the claim’s conditions (a), (b), (c)
holds, so the claimed “only if” direction fails. -/
theorem claim3_counterexample :
    (processMeasures env3 qc3).map (fun q => q.error.isSome) = some true ∧
    qc3.aqlQuery.measures.length = 1 ∧
    env3.parseExpr "count(x)" =
      .ok (.call "count" [.varRef "x" .UnknownType (-1) (-1) .UnknownDT none [] false] .UnknownType) ∧
    soleMeasureBad qc3.returnHLLBinary
      (.call "count" [.varRef "x" .UnknownType (-1) (-1) .UnknownDT none [] false] .UnknownType) = false := by
  refine ⟨?_, rfl, rfl, rfl⟩
  simp only [processMeasures, c3loop]
  rfl

/-- C3 (amended): when the parse/rewrite loop of `processMeasures` completes
without a panic, the compiled context carries an error if and only if
(0) the loop itself set one (a measure expression or measure filter failed to
parse or rewrite), or (a) the number of measures differs from 1, or (b) the
sole measure’s parsed expression is neither a `NumberLiteral` nor a `Call`
with exactly one argument, or (c) `ReturnHLLBinary` is set and the call is
not `hll`; moreover, when the loop is error-free and the sole measure is a
`NumberLiteral`, `IsNonAggregationQuery` is set and a zero `Limit` defaults
to 1000. -/
theorem claim3_measure_errors (env : BrokerEnv) (qc : QueryContext)
    (ms : List Measure) (qcL : QueryContext)
    (hL : processMeasuresLoop env qc qc.aqlQuery.measures = some (ms, qcL)) :
    ∃ qc', processMeasures env qc = some qc' ∧
      (qc'.error.isSome = true ↔
        (qcL.error.isSome = true ∨ ms.length ≠ 1 ∨
          ∃ m, ms = [m] ∧ soleMeasureBad qcL.returnHLLBinary m.exprParsed = true)) ∧
      (∀ m int s t, qcL.error = none → ms = [m] →
        m.exprParsed = .numberLiteral int s t →
        qc'.isNonAggregationQuery = true ∧
        qc'.aqlQuery.limit =
          (if qcL.aqlQuery.limit = 0 then nonAggregationQueryLimit else qcL.aqlQuery.limit)) := by
  unfold processMeasures
  rw [hL]
  dsimp only
  cases hqe : qcL.error with
  | some msg =>
    refine ⟨_, by rw [if_pos (by simp [hqe])], ?_, ?_⟩
    · simp [hqe]
    · intro m int s t h0
      simp at h0
  | none =>
    rw [if_neg (by simp [hqe])]
    match ms with
    | [] =>
      refine ⟨_, rfl, ?_, ?_⟩
      · simp [QueryContext.withError]
      · intro m int s t _ h
        simp at h
    | m1 :: m2 :: rest =>
      refine ⟨_, rfl, ?_, ?_⟩
      · simp [QueryContext.withError]
      · intro m int s t _ h
        simp at h
    | [m] =>
      obtain ⟨me, mp, mfs, mfp⟩ := m
      cases mp with
      | numberLiteral int0 s0 t0 =>
        dsimp only
        by_cases hl : qcL.aqlQuery.limit = 0
        · rw [if_pos hl]
          refine ⟨_, rfl, ?_, ?_⟩
          · simp [hqe, soleMeasureBad]
          · intro m' int s t _ hm' hnum
            cases hm'
            simp [hl]
        · rw [if_neg hl]
          refine ⟨_, rfl, ?_, ?_⟩
          · simp [hqe, soleMeasureBad]
          · intro m' int s t _ hm' hnum
            cases hm'
            simp [hl, hqe]
      | call cname cargs ct =>
        dsimp only
        by_cases hc1 : cargs.length ≠ 1
        · rw [if_pos hc1]
          refine ⟨_, rfl, ?_, ?_⟩
          · simp [QueryContext.withError, soleMeasureBad, hc1]
          · intro m' int s t _ hm' hnum
            cases hm'
            simp at hnum
        · rw [if_neg hc1]
          by_cases hc2 : qcL.returnHLLBinary = true ∧ cname ≠ hllCallName
          · rw [if_pos hc2]
            refine ⟨_, rfl, ?_, ?_⟩
            · simp [QueryContext.withError, soleMeasureBad, hc1, hc2.1, hc2.2]
            · intro m' int s t _ hm' hnum
              cases hm'
              simp at hnum
          · rw [if_neg hc2]
            refine ⟨_, rfl, ?_, ?_⟩
            · simp only [hqe, soleMeasureBad]
              push_neg at hc1 hc2
              simp [hc1]
              intro hb
              exact hc2 hb
            · intro m' int s t _ hm' hnum
              cases hm'
              simp at hnum
      | stringLiteral v =>
        dsimp only
        refine ⟨_, rfl, ?_, ?_⟩
        · simp [QueryContext.withError, soleMeasureBad]
        · intro m' int s t _ hm' hnum
          cases hm'
          simp at hnum
      | booleanLiteral v =>
        dsimp only
        refine ⟨_, rfl, ?_, ?_⟩
        · simp [QueryContext.withError, soleMeasureBad]
        · intro m' int s t _ hm' hnum
          cases hm'
          simp at hnum
      | geopointLiteral v =>
        dsimp only
        refine ⟨_, rfl, ?_, ?_⟩
        · simp [QueryContext.withError, soleMeasureBad]
        · intro m' int s t _ hm' hnum
          cases hm'
          simp at hnum
      | varRef a b c d e f g h =>
        dsimp only
        refine ⟨_, rfl, ?_, ?_⟩
        · simp [QueryContext.withError, soleMeasureBad]
        · intro m' int s t _ hm' hnum
          cases hm'
          simp at hnum
      | unary a b c =>
        dsimp only
        refine ⟨_, rfl, ?_, ?_⟩
        · simp [QueryContext.withError, soleMeasureBad]
        · intro m' int s t _ hm' hnum
          cases hm'
          simp at hnum
      | binary a b c d =>
        dsimp only
        refine ⟨_, rfl, ?_, ?_⟩
        · simp [QueryContext.withError, soleMeasureBad]
        · intro m' int s t _ hm' hnum
          cases hm'
          simp at hnum
      | caseE a b c =>
        dsimp only
        refine ⟨_, rfl, ?_, ?_⟩
        · simp [QueryContext.withError, soleMeasureBad]
        · intro m' int s t _ hm' hnum
          cases hm'
          simp at hnum
      | paren a =>
        dsimp only
        refine ⟨_, rfl, ?_, ?_⟩
        · simp [QueryContext.withError, soleMeasureBad]
        · intro m' int s t _ hm' hnum
          cases hm'
          simp at hnum
      | wildcard =>
        dsimp only
        refine ⟨_, rfl, ?_, ?_⟩
        · simp [QueryContext.withError, soleMeasureBad]
        · intro m' int s t _ hm' hnum
          cases hm'
          simp at hnum
      | nilExpr =>
        dsimp only
        refine ⟨_, rfl, ?_, ?_⟩
        · simp [QueryContext.withError, soleMeasureBad]
        · intro m' int s t _ hm' hnum
          cases hm'
          simp at hnum

/-- Witness for C3 (amended), at the concrete `count(x)` context: the loop
result is supplied explicitly and the error case (0) fires. -/
theorem claim3_measure_errors_witness :
    ∃ qc', processMeasures env3 qc3 = some qc' ∧ qc'.error.isSome = true := by
  obtain ⟨qc', h1, h2, _⟩ := claim3_measure_errors env3 qc3
    [⟨"count(x)", .nilExpr, [], []⟩] (qc3.withError "unknown column x for table alias t")
    c3loop
  exact ⟨qc', h1, h2.mpr (Or.inl rfl)⟩

/-! ### C1: VarRef typing through the rewriter -/

mutual

/-- Whether every `VarRef` subnode of an expression carries an expression
type different from `UnknownType` (the node property claim C1 asserts for
rewritten expressions). -/
def varRefsTyped : Expr → Bool
  | .varRef _ t _ _ _ _ _ _ => t ≠ ExprType.UnknownType
  | .unary _ c _ => varRefsTyped c
  | .binary _ l r _ => varRefsTyped l && varRefsTyped r
  | .call _ args _ => varRefsTypedList args
  | .caseE wts els _ => varRefsTypedPairs wts && varRefsTyped els
  | .paren c => varRefsTyped c
  | _ => true

def varRefsTypedList : List Expr → Bool
  | [] => true
  | x :: xs => varRefsTyped x && varRefsTypedList xs

def varRefsTypedPairs : List (Expr × Expr) → Bool
  | [] => true
  | (a, b) :: xs => varRefsTyped a && varRefsTyped b && varRefsTypedPairs xs

end


/-- Every bound schema's column value types translate to a non-`Unknown`
expression type (`DataTypeToExprType`). -/
def SchemaOK (qc : QueryContext) : Prop :=
  ∀ t ∈ qc.tables, ∀ dt ∈ t.valueTypeByColumn,
    dataTypeToExprType dt ≠ ExprType.UnknownType

/-- The schema-reader oracle only serves schemas whose column value types
translate to non-`Unknown` expression types. -/
def envSchemaOK (env : BrokerEnv) : Prop :=
  ∀ s sch, env.getSchema s = .ok sch →
    ∀ dt ∈ sch.valueTypeByColumn, dataTypeToExprType dt ≠ ExprType.UnknownType

/-- How a context may change across a rewrite step: the bound tables and the
query are untouched and the error slot is never cleared. -/
def ctxEvolves (qc qc' : QueryContext) : Prop :=
  qc'.tables = qc.tables ∧ qc'.aqlQuery = qc.aqlQuery ∧
  (qc'.error = none → qc.error = none)

theorem ctxEvolves_refl (qc : QueryContext) : ctxEvolves qc qc :=
  ⟨rfl, rfl, fun h => h⟩

theorem ctxEvolves_trans {a b c : QueryContext} (h1 : ctxEvolves a b)
    (h2 : ctxEvolves b c) : ctxEvolves a c :=
  ⟨h2.1.trans h1.1, h2.2.1.trans h1.2.1, fun h => h1.2.2 (h2.2.2 h)⟩

theorem ctxEvolves_withError (qc : QueryContext) (m : String) :
    ctxEvolves qc (qc.withError m) :=
  ⟨rfl, rfl, fun h => by simp [QueryContext.withError] at h⟩

theorem schemaOK_evolves {qc qc' : QueryContext} (h : ctxEvolves qc qc')
    (hs : SchemaOK qc) : SchemaOK qc' := by
  intro t ht
  rw [h.1] at ht
  exact hs t ht

theorem rewriteVarRefNode_evolves {qc : QueryContext} {v : String} {et : ExprType}
    {tid cid : Int} {dt : DataType} {ed : Option (List (String × Int))}
    {erd : List String} {hll : Bool} {e' : Expr} {qc' : QueryContext}
    (h : rewriteVarRefNode qc v et tid cid dt ed erd hll = some (e', qc')) :
    ctxEvolves qc qc' := by
  unfold rewriteVarRefNode at h
  repeat' split at h
  all_goals cases h
  all_goals first
    | exact ctxEvolves_withError _ _
    | exact ctxEvolves_refl _

theorem rewriteUnaryNode_evolves (qc : QueryContext) (op : Token) (child : Expr)
    (t0 : ExprType) : ctxEvolves qc (rewriteUnaryNode qc op child t0).2 := by
  unfold rewriteUnaryNode
  dsimp only
  repeat' split
  all_goals first
    | exact ctxEvolves_withError qc _
    | exact ctxEvolves_refl qc

theorem rewriteEqNeq_evolves {env : BrokerEnv} {qc : QueryContext} {op : Token}
    {lhs rhs : Expr} {e' : Expr} {qc' : QueryContext}
    (h : rewriteEqNeq env qc op lhs rhs = some (e', qc')) : ctxEvolves qc qc' := by
  unfold rewriteEqNeq at h
  try dsimp only at h
  repeat' split at h
  all_goals cases h
  all_goals first
    | exact ctxEvolves_withError _ _
    | exact ctxEvolves_refl _

theorem rewriteBinaryRest_evolves {env : BrokerEnv} {qc : QueryContext} {op : Token}
    {lhs rhs : Expr} {t0 : ExprType} {e' : Expr} {qc' : QueryContext}
    (h : rewriteBinaryRest env qc op lhs rhs t0 = some (e', qc')) :
    ctxEvolves qc qc' := by
  unfold rewriteBinaryRest at h
  try dsimp only at h
  repeat' split at h
  all_goals first
    | exact rewriteEqNeq_evolves h
    | (cases h; first
        | exact ctxEvolves_withError _ _
        | exact ctxEvolves_refl _)

set_option maxHeartbeats 2000000 in
theorem rewriteCallArm_evolves {env : BrokerEnv} {qc : QueryContext}
    {name : String} {args : List Expr} {t0 : ExprType} {e' : Expr}
    {qc' : QueryContext}
    (h : rewriteCallArm env qc name args t0 = some (e', qc')) :
    ctxEvolves qc qc' := by
  unfold rewriteCallArm at h
  by_cases hc1 : name = convertTzCallName
  · rw [if_pos hc1] at h
    try dsimp only at h
    repeat' split at h
    all_goals cases h
    all_goals first
      | exact ctxEvolves_withError _ _
      | exact ctxEvolves_refl _
      | exact ctxEvolves_trans (ctxEvolves_withError _ _) (ctxEvolves_withError _ _)
      | exact ctxEvolves_trans (ctxEvolves_withError _ _) (ctxEvolves_refl _)
  · rw [if_neg hc1] at h
    by_cases hc2 : name = countCallName
    · rw [if_pos hc2] at h
      try dsimp only at h
      repeat' split at h
      all_goals cases h
      all_goals first
        | exact ctxEvolves_withError _ _
        | exact ctxEvolves_refl _
        | exact ctxEvolves_trans (ctxEvolves_withError _ _) (ctxEvolves_withError _ _)
        | exact ctxEvolves_trans (ctxEvolves_withError _ _) (ctxEvolves_refl _)
    · rw [if_neg hc2] at h
      by_cases hc3 : name = dayOfWeekCallName
      · rw [if_pos hc3] at h
        try dsimp only at h
        repeat' split at h
        all_goals cases h
        all_goals first
          | exact ctxEvolves_withError _ _
          | exact ctxEvolves_refl _
          | exact ctxEvolves_trans (ctxEvolves_withError _ _) (ctxEvolves_withError _ _)
          | exact ctxEvolves_trans (ctxEvolves_withError _ _) (ctxEvolves_refl _)
      · rw [if_neg hc3] at h
        by_cases hc4 : name = fromUnixTimeCallName
        · rw [if_pos hc4] at h
          try dsimp only at h
          repeat' split at h
          all_goals cases h
          all_goals first
            | exact ctxEvolves_withError _ _
            | exact ctxEvolves_refl _
            | exact ctxEvolves_trans (ctxEvolves_withError _ _) (ctxEvolves_withError _ _)
            | exact ctxEvolves_trans (ctxEvolves_withError _ _) (ctxEvolves_refl _)
        · rw [if_neg hc4] at h
          by_cases hc5 : name = hourCallName
          · rw [if_pos hc5] at h
            try dsimp only at h
            repeat' split at h
            all_goals cases h
            all_goals first
              | exact ctxEvolves_withError _ _
              | exact ctxEvolves_refl _
              | exact ctxEvolves_trans (ctxEvolves_withError _ _) (ctxEvolves_withError _ _)
              | exact ctxEvolves_trans (ctxEvolves_withError _ _) (ctxEvolves_refl _)
          · rw [if_neg hc5] at h
            by_cases hc6 : name = listCallName
            · rw [if_pos hc6] at h
              try dsimp only at h
              repeat' split at h
              all_goals cases h
              all_goals first
                | exact ctxEvolves_withError _ _
                | exact ctxEvolves_refl _
                | exact ctxEvolves_trans (ctxEvolves_withError _ _) (ctxEvolves_withError _ _)
                | exact ctxEvolves_trans (ctxEvolves_withError _ _) (ctxEvolves_refl _)
            · rw [if_neg hc6] at h
              by_cases hc7 : name = geographyIntersectsCallName
              · rw [if_pos hc7] at h
                try dsimp only at h
                repeat' split at h
                all_goals cases h
                all_goals first
                  | exact ctxEvolves_withError _ _
                  | exact ctxEvolves_refl _
                  | exact ctxEvolves_trans (ctxEvolves_withError _ _) (ctxEvolves_withError _ _)
                  | exact ctxEvolves_trans (ctxEvolves_withError _ _) (ctxEvolves_refl _)
              · rw [if_neg hc7] at h
                by_cases hc8 : name = hexCallName
                · rw [if_pos hc8] at h
                  try dsimp only at h
                  repeat' split at h
                  all_goals cases h
                  all_goals first
                    | exact ctxEvolves_withError _ _
                    | exact ctxEvolves_refl _
                    | exact ctxEvolves_trans (ctxEvolves_withError _ _) (ctxEvolves_withError _ _)
                    | exact ctxEvolves_trans (ctxEvolves_withError _ _) (ctxEvolves_refl _)
                · rw [if_neg hc8] at h
                  by_cases hc9 : name = countDistinctHllCallName
                  · rw [if_pos hc9] at h
                    try dsimp only at h
                    repeat' split at h
                    all_goals cases h
                    all_goals first
                      | exact ctxEvolves_withError _ _
                      | exact ctxEvolves_refl _
                      | exact ctxEvolves_trans (ctxEvolves_withError _ _) (ctxEvolves_withError _ _)
                      | exact ctxEvolves_trans (ctxEvolves_withError _ _) (ctxEvolves_refl _)
                  · rw [if_neg hc9] at h
                    by_cases hc10 : name = hllCallName
                    · rw [if_pos hc10] at h
                      try dsimp only at h
                      repeat' split at h
                      all_goals cases h
                      all_goals first
                        | exact ctxEvolves_withError _ _
                        | exact ctxEvolves_refl _
                        | exact ctxEvolves_trans (ctxEvolves_withError _ _) (ctxEvolves_withError _ _)
                        | exact ctxEvolves_trans (ctxEvolves_withError _ _) (ctxEvolves_refl _)
                    · rw [if_neg hc10] at h
                      by_cases hc11 : name = sumCallName ∨ name = minCallName ∨ name = maxCallName ∨ name = avgCallName
                      · rw [if_pos hc11] at h
                        try dsimp only at h
                        repeat' split at h
                        all_goals cases h
                        all_goals first
                          | exact ctxEvolves_withError _ _
                          | exact ctxEvolves_refl _
                          | exact ctxEvolves_trans (ctxEvolves_withError _ _) (ctxEvolves_withError _ _)
                          | exact ctxEvolves_trans (ctxEvolves_withError _ _) (ctxEvolves_refl _)
                      · rw [if_neg hc11] at h
                        by_cases hc12 : name = lengthCallName ∨ name = containsCallName ∨ name = elementAtCallName
                        · rw [if_pos hc12] at h
                          try dsimp only at h
                          repeat' split at h
                          all_goals cases h
                          all_goals first
                            | exact ctxEvolves_withError _ _
                            | exact ctxEvolves_refl _
                            | exact ctxEvolves_trans (ctxEvolves_withError _ _) (ctxEvolves_withError _ _)
                            | exact ctxEvolves_trans (ctxEvolves_withError _ _) (ctxEvolves_refl _)
                        · rw [if_neg hc12] at h
                          cases h
                          exact ctxEvolves_withError _ _

theorem rewriteCallNode_evolves {env : BrokerEnv} {qc : QueryContext}
    {name0 : String} {args : List Expr} {t0 : ExprType} {e' : Expr}
    {qc' : QueryContext}
    (h : rewriteCallNode env qc name0 args t0 = some (e', qc')) :
    ctxEvolves qc qc' :=
  rewriteCallArm_evolves h

theorem rewriteCaseNode_evolves (qc : QueryContext) (wts : List (Expr × Expr))
    (elseE : Expr) : ctxEvolves qc (rewriteCaseNode qc wts elseE).2 :=
  ctxEvolves_refl qc

theorem expandINLoop_evolves {env : BrokerEnv} {lhs : Expr} :
    ∀ (values : List Expr) (qc : QueryContext) (acc e' : Expr)
      (qc' : QueryContext),
      expandINLoop env qc lhs values acc = some (e', qc') → ctxEvolves qc qc' := by
  intro values
  induction values with
  | nil =>
    intro qc acc e' qc' h
    unfold expandINLoop at h
    cases h
    exact ctxEvolves_refl _
  | cons v rest ih =>
    intro qc acc e' qc' h
    unfold expandINLoop at h
    repeat' split at h
    all_goals first
      | cases h
      | exact ctxEvolves_trans (rewriteEqNeq_evolves (by assumption)) (ih _ _ _ _ h)

theorem expandINop_evolves {env : BrokerEnv} {qc : QueryContext} {lhs rhs e' : Expr}
    {qc' : QueryContext} (h : expandINop env qc lhs rhs = some (e', qc')) :
    ctxEvolves qc qc' := by
  unfold expandINop at h
  dsimp only at h
  cases rhs
  all_goals dsimp only at h
  all_goals first
    | (refine ctxEvolves_trans ?_ (expandINLoop_evolves _ _ _ _ _ h)
       split
       · exact ctxEvolves_refl _
       · exact ctxEvolves_withError _ _)
    | (cases h
       refine ctxEvolves_trans ?_ (ctxEvolves_withError _ _)
       split
       · exact ctxEvolves_refl _
       · exact ctxEvolves_withError _ _)

theorem rewriteNode_evolves {env : BrokerEnv} {qc : QueryContext} {e e' : Expr}
    {qc' : QueryContext} (h : rewriteNode env qc e = some (e', qc')) :
    ctxEvolves qc qc' := by
  unfold rewriteNode at h
  repeat' split at h
  all_goals first
    | exact rewriteVarRefNode_evolves h
    | exact rewriteBinaryRest_evolves h
    | exact rewriteCallNode_evolves h
    | exact expandINop_evolves h
    | (rw [← @Prod.mk.eta _ _ (rewriteUnaryNode _ _ _ _)] at h
       cases h
       exact rewriteUnaryNode_evolves _ _ _ _)
    | (rw [← @Prod.mk.eta _ _ (rewriteCaseNode _ _ _)] at h
       cases h
       exact rewriteCaseNode_evolves _ _ _)
    | (cases h <;>
       first
        | exact ctxEvolves_refl _
        | exact ctxEvolves_withError _ _
        | exact expandINop_evolves (by assumption))

theorem rewriteWalk_evolves {env : BrokerEnv} : ∀ (qc : QueryContext) (e : Expr),
    ∀ e' qc', rewriteWalk env qc e = some (e', qc') → ctxEvolves qc qc' := by
  refine rewriteWalk.induct env
    (fun qc e => ∀ e' qc', rewriteWalk env qc e = some (e', qc') → ctxEvolves qc qc')
    (fun qc ps => ∀ ps' qc', rewriteWalkPairs env qc ps = some (ps', qc') → ctxEvolves qc qc')
    (fun qc es => ∀ es' qc', rewriteWalkList env qc es = some (es', qc') → ctxEvolves qc qc')
    ?_ ?_ ?_ ?_ ?_ ?_ ?_ ?_ ?_ ?_ ?_ ?_ ?_ ?_ ?_ ?_ ?_ ?_ ?_ ?_ ?_ ?_
  · intro qc op l r t hl _ e' qc' h
    simp only [rewriteWalk, hl] at h
    cases h
  · intro qc op l r t ex qc1 hl hr _ _ e' qc' h
    simp only [rewriteWalk, hl, hr] at h
    cases h
  · intro qc op l r t ex qc1 hl ex2 qc2 hr ih1 ih2 e' qc' h
    simp only [rewriteWalk, hl, hr] at h
    exact ctxEvolves_trans (ih1 _ _ hl) (ctxEvolves_trans (ih2 _ _ hr) (rewriteNode_evolves h))
  · intro qc c hc _ e' qc' h
    simp only [rewriteWalk, hc] at h
    cases h
  · intro qc c ex qc1 hc ih e' qc' h
    simp only [rewriteWalk, hc] at h
    exact ctxEvolves_trans (ih _ _ hc) (rewriteNode_evolves h)
  · intro qc n args t hargs _ e' qc' h
    simp only [rewriteWalk, hargs] at h
    cases h
  · intro qc n args t args1 qc1 hargs ih e' qc' h
    simp only [rewriteWalk, hargs] at h
    exact ctxEvolves_trans (ih _ _ hargs) (rewriteNode_evolves h)
  · intro qc op c t hc _ e' qc' h
    simp only [rewriteWalk, hc] at h
    cases h
  · intro qc op c t ex qc1 hc ih e' qc' h
    simp only [rewriteWalk, hc] at h
    exact ctxEvolves_trans (ih _ _ hc) (rewriteNode_evolves h)
  · intro qc wts els t hw _ e' qc' h
    simp only [rewriteWalk, hw] at h
    cases h
  · intro qc wts els t wts1 qc1 hw he _ _ e' qc' h
    simp only [rewriteWalk, hw, he] at h
    cases h
  · intro qc wts els t wts1 qc1 hw ex qc2 he ih1 ih2 e' qc' h
    simp only [rewriteWalk, hw, he] at h
    exact ctxEvolves_trans (ih1 _ _ hw) (ctxEvolves_trans (ih2 _ _ he) (rewriteNode_evolves h))
  · intro qc other h1 h2 h3 h4 h5 e' qc' h
    cases other
    case binary op l r t => exact absurd rfl (fun hh => h1 op l r t hh)
    case paren c => exact absurd rfl (fun hh => h2 c hh)
    case call n args t => exact absurd rfl (fun hh => h3 n args t hh)
    case unary op c t => exact absurd rfl (fun hh => h4 op c t hh)
    case caseE wts els t => exact absurd rfl (fun hh => h5 wts els t hh)
    all_goals simp only [rewriteWalk] at h
    all_goals exact rewriteNode_evolves h
  · intro qc es' qc' h
    unfold rewriteWalkList at h
    cases h
    exact ctxEvolves_refl _
  · intro qc e rest he _ es' qc' h
    simp only [rewriteWalkList, he] at h
    cases h
  · intro qc e rest ex qc1 he hrest _ _ es' qc' h
    simp only [rewriteWalkList, he, hrest] at h
    cases h
  · intro qc e rest ex qc1 he args1 qc2 hrest ih1 ih2 es' qc' h
    simp only [rewriteWalkList, he, hrest] at h
    cases h
    exact ctxEvolves_trans (ih1 _ _ he) (ih2 _ _ hrest)
  · intro qc ps' qc' h
    unfold rewriteWalkPairs at h
    cases h
    exact ctxEvolves_refl _
  · intro qc w t rest hw _ ps' qc' h
    simp only [rewriteWalkPairs, hw] at h
    cases h
  · intro qc w t rest ex qc1 hw ht _ _ ps' qc' h
    simp only [rewriteWalkPairs, hw, ht] at h
    cases h
  · intro qc w t rest ex qc1 hw ex2 qc2 ht hrest _ _ _ ps' qc' h
    simp only [rewriteWalkPairs, hw, ht, hrest] at h
    cases h
  · intro qc w t rest ex qc1 hw ex2 qc2 ht wts1 qc3 hrest ih1 ih2 ih3 ps' qc' h
    simp only [rewriteWalkPairs, hw, ht, hrest] at h
    cases h
    exact ctxEvolves_trans (ih1 _ _ hw)
      (ctxEvolves_trans (ih2 _ _ ht) (ih3 _ _ hrest))

theorem varRefsTypedList_mem {es : List Expr} (h : varRefsTypedList es = true)
    {x : Expr} (hx : x ∈ es) : varRefsTyped x = true := by
  induction es with
  | nil => cases hx
  | cons a as ih =>
    simp only [varRefsTypedList, Bool.and_eq_true] at h
    rcases hx with _ | hx
    · exact h.1
    · exact ih h.2 (by assumption)

theorem varRefsTypedList_of_forall {es : List Expr}
    (h : ∀ x ∈ es, varRefsTyped x = true) : varRefsTypedList es = true := by
  induction es with
  | nil => rfl
  | cons a as ih =>
    simp only [varRefsTypedList, Bool.and_eq_true]
    exact ⟨h a (List.mem_cons_self a as), ih (fun x hx => h x (List.mem_cons_of_mem a hx))⟩

theorem castTo_typed {e : Expr} (h : varRefsTyped e = true) (t : ExprType) :
    varRefsTyped (castTo e t) = true := by
  unfold castTo
  split
  · exact h
  · split
    · rfl
    · simpa [varRefsTyped] using h

theorem rewriteVarRefNode_typed {qc : QueryContext} {v : String} {et : ExprType}
    {tid cid : Int} {dt : DataType} {ed : Option (List (String × Int))}
    {erd : List String} {hll : Bool} {e' : Expr} {qc' : QueryContext}
    (hs : SchemaOK qc)
    (h : rewriteVarRefNode qc v et tid cid dt ed erd hll = some (e', qc'))
    (he : qc'.error = none) : varRefsTyped e' = true := by
  unfold rewriteVarRefNode at h
  repeat' split at h
  all_goals cases h
  all_goals try (exfalso; simp [QueryContext.withError] at he)
  rename_i x3 tableID columnID hrc x2 schema htab x1 column hcol hdel x0 dataType hvt
  simp only [varRefsTyped]
  have hmem : schema ∈ qc.tables := List.getElem?_mem htab
  have hdtm : dataType ∈ schema.valueTypeByColumn := List.getElem?_mem hvt
  have hne := hs schema hmem dataType hdtm
  simpa using hne

set_option maxHeartbeats 1000000 in
theorem rewriteUnaryNode_typed {qc : QueryContext} {op : Token} {child : Expr}
    {t0 : ExprType} (hc : varRefsTyped child = true) :
    varRefsTyped (rewriteUnaryNode qc op child t0).1 = true := by
  unfold rewriteUnaryNode
  dsimp only
  repeat' split
  all_goals first
    | simpa [varRefsTyped] using hc
    | simpa [varRefsTyped] using castTo_typed hc ExprType.Boolean
    | simpa [varRefsTyped] using castTo_typed hc ExprType.Unsigned
    | (have h2 := castTo_typed hc ExprType.Boolean
       simp_all [varRefsTyped])

set_option maxHeartbeats 1000000 in
theorem rewriteEqNeq_typed {env : BrokerEnv} {qc : QueryContext} {op : Token}
    {lhs rhs : Expr} {e' : Expr} {qc' : QueryContext}
    (hl : varRefsTyped lhs = true) (hr : varRefsTyped rhs = true)
    (h : rewriteEqNeq env qc op lhs rhs = some (e', qc')) :
    varRefsTyped e' = true := by
  unfold rewriteEqNeq at h
  simp only [] at h
  by_cases hswap : (!lhs.isVarRef && rhs.isVarRef) = true
  · rw [if_pos hswap] at h
    simp only [] at h
    repeat' split at h
    all_goals cases h
    all_goals try simp_all [varRefsTyped]
    all_goals try refine ⟨?_, ?_⟩
    all_goals try rfl
    all_goals try exact castTo_typed rfl _
    all_goals try exact castTo_typed (by simp only [varRefsTyped, decide_eq_true_eq]; first | exact hr | exact hl) _
    all_goals try exact castTo_typed (by simp_all [varRefsTyped]) _
    all_goals simp_all [varRefsTyped]
  · rw [if_neg hswap] at h
    simp only [] at h
    repeat' split at h
    all_goals cases h
    all_goals try simp_all [varRefsTyped]
    all_goals try refine ⟨?_, ?_⟩
    all_goals try rfl
    all_goals try exact castTo_typed rfl _
    all_goals try exact castTo_typed (by simp only [varRefsTyped, decide_eq_true_eq]; first | exact hr | exact hl) _
    all_goals try exact castTo_typed (by simp_all [varRefsTyped]) _
    all_goals simp_all [varRefsTyped]

theorem rewriteBinaryRest_typed {env : BrokerEnv} {qc : QueryContext} {op : Token}
    {lhs rhs : Expr} {t0 : ExprType} {e' : Expr} {qc' : QueryContext}
    (hl : varRefsTyped lhs = true) (hr : varRefsTyped rhs = true)
    (h : rewriteBinaryRest env qc op lhs rhs t0 = some (e', qc')) :
    varRefsTyped e' = true := by
  unfold rewriteBinaryRest at h
  dsimp only at h
  repeat' split at h
  all_goals first
    | exact rewriteEqNeq_typed hl hr h
    | (cases h; simp_all [varRefsTyped, castTo_typed])

theorem varRefsTypedPairs_castMap {wts : List (Expr × Expr)}
    (h : varRefsTypedPairs wts = true) (ht : ExprType) :
    varRefsTypedPairs
      (wts.map (fun wt => (castTo wt.1 ExprType.Boolean, castTo wt.2 ht))) = true := by
  induction wts with
  | nil => rfl
  | cons a as ih =>
    obtain ⟨w, t⟩ := a
    simp only [varRefsTypedPairs, Bool.and_eq_true, List.map_cons] at h ⊢
    exact ⟨⟨castTo_typed h.1.1 _, castTo_typed h.1.2 _⟩, ih h.2⟩

theorem rewriteCaseNode_typed {qc : QueryContext} {wts : List (Expr × Expr)}
    {elseE : Expr} (hw : varRefsTypedPairs wts = true)
    (he : varRefsTyped elseE = true) :
    varRefsTyped (rewriteCaseNode qc wts elseE).1 = true := by
  unfold rewriteCaseNode
  simp only [varRefsTyped, Bool.and_eq_true]
  exact ⟨varRefsTypedPairs_castMap hw _, castTo_typed he _⟩

theorem varRefsTyped_parenStrip {dl x : Expr}
    (hd : varRefsTyped dl = true)
    (heq : parenStrip dl = x) :
    varRefsTyped x = true := by
  unfold parenStrip at heq
  cases dl <;> (cases heq; simpa [varRefsTyped] using hd)

set_option maxHeartbeats 4000000 in
theorem rewriteCallArm_typed {env : BrokerEnv} {qc : QueryContext}
    {name : String} {args : List Expr} {t0 : ExprType} {e' : Expr}
    {qc' : QueryContext} (hargs : varRefsTypedList args = true)
    (h : rewriteCallArm env qc name args t0 = some (e', qc')) :
    varRefsTyped e' = true := by
  unfold rewriteCallArm at h
  by_cases hc1 : name = convertTzCallName
  · rw [if_pos hc1] at h
    try dsimp only at h
    repeat' split at h
    all_goals cases h
    all_goals try simp_all [varRefsTyped, varRefsTypedList]
    all_goals try exact castTo_typed (by simp_all [varRefsTyped, varRefsTypedList]) _
    all_goals try (rename_i heq; have h3 := varRefsTyped_parenStrip (by simp_all) heq; simp_all [varRefsTyped])
    all_goals try exact varRefsTyped_parenStrip (by simp_all) rfl
    all_goals simp_all [varRefsTyped, varRefsTypedList, castTo_typed]
  · rw [if_neg hc1] at h
    by_cases hc2 : name = countCallName
    · rw [if_pos hc2] at h
      try dsimp only at h
      repeat' split at h
      all_goals cases h
      all_goals try simp_all [varRefsTyped, varRefsTypedList]
      all_goals try exact castTo_typed (by simp_all [varRefsTyped, varRefsTypedList]) _
      all_goals try (rename_i heq; have h3 := varRefsTyped_parenStrip (by simp_all) heq; simp_all [varRefsTyped])
      all_goals try exact varRefsTyped_parenStrip (by simp_all) rfl
      all_goals simp_all [varRefsTyped, varRefsTypedList, castTo_typed]
    · rw [if_neg hc2] at h
      by_cases hc3 : name = dayOfWeekCallName
      · rw [if_pos hc3] at h
        try dsimp only at h
        repeat' split at h
        all_goals cases h
        all_goals try simp_all [varRefsTyped, varRefsTypedList]
        all_goals try exact castTo_typed (by simp_all [varRefsTyped, varRefsTypedList]) _
        all_goals try (rename_i heq; have h3 := varRefsTyped_parenStrip (by simp_all) heq; simp_all [varRefsTyped])
        all_goals try exact varRefsTyped_parenStrip (by simp_all) rfl
        all_goals simp_all [varRefsTyped, varRefsTypedList, castTo_typed]
      · rw [if_neg hc3] at h
        by_cases hc4 : name = fromUnixTimeCallName
        · rw [if_pos hc4] at h
          try dsimp only at h
          repeat' split at h
          all_goals cases h
          all_goals try simp_all [varRefsTyped, varRefsTypedList]
          all_goals try exact castTo_typed (by simp_all [varRefsTyped, varRefsTypedList]) _
          all_goals try (rename_i heq; have h3 := varRefsTyped_parenStrip (by simp_all) heq; simp_all [varRefsTyped])
          all_goals try exact varRefsTyped_parenStrip (by simp_all) rfl
          all_goals simp_all [varRefsTyped, varRefsTypedList, castTo_typed]
        · rw [if_neg hc4] at h
          by_cases hc5 : name = hourCallName
          · rw [if_pos hc5] at h
            try dsimp only at h
            repeat' split at h
            all_goals cases h
            all_goals try simp_all [varRefsTyped, varRefsTypedList]
            all_goals try exact castTo_typed (by simp_all [varRefsTyped, varRefsTypedList]) _
            all_goals try (rename_i heq; have h3 := varRefsTyped_parenStrip (by simp_all) heq; simp_all [varRefsTyped])
            all_goals try exact varRefsTyped_parenStrip (by simp_all) rfl
            all_goals simp_all [varRefsTyped, varRefsTypedList, castTo_typed]
          · rw [if_neg hc5] at h
            by_cases hc6 : name = listCallName
            · rw [if_pos hc6] at h
              try dsimp only at h
              repeat' split at h
              all_goals cases h
              all_goals try simp_all [varRefsTyped, varRefsTypedList]
              all_goals try exact castTo_typed (by simp_all [varRefsTyped, varRefsTypedList]) _
              all_goals try (rename_i heq; have h3 := varRefsTyped_parenStrip (by simp_all) heq; simp_all [varRefsTyped])
              all_goals try exact varRefsTyped_parenStrip (by simp_all) rfl
              all_goals simp_all [varRefsTyped, varRefsTypedList, castTo_typed]
            · rw [if_neg hc6] at h
              by_cases hc7 : name = geographyIntersectsCallName
              · rw [if_pos hc7] at h
                try dsimp only at h
                repeat' split at h
                all_goals cases h
                all_goals try simp_all [varRefsTyped, varRefsTypedList]
                all_goals try exact castTo_typed (by simp_all [varRefsTyped, varRefsTypedList]) _
                all_goals try (rename_i heq; have h3 := varRefsTyped_parenStrip (by simp_all) heq; simp_all [varRefsTyped])
                all_goals try exact varRefsTyped_parenStrip (by simp_all) rfl
                all_goals simp_all [varRefsTyped, varRefsTypedList, castTo_typed]
              · rw [if_neg hc7] at h
                by_cases hc8 : name = hexCallName
                · rw [if_pos hc8] at h
                  try dsimp only at h
                  repeat' split at h
                  all_goals cases h
                  all_goals try simp_all [varRefsTyped, varRefsTypedList]
                  all_goals try exact castTo_typed (by simp_all [varRefsTyped, varRefsTypedList]) _
                  all_goals try (rename_i heq; have h3 := varRefsTyped_parenStrip (by simp_all) heq; simp_all [varRefsTyped])
                  all_goals try exact varRefsTyped_parenStrip (by simp_all) rfl
                  all_goals simp_all [varRefsTyped, varRefsTypedList, castTo_typed]
                · rw [if_neg hc8] at h
                  by_cases hc9 : name = countDistinctHllCallName
                  · rw [if_pos hc9] at h
                    try dsimp only at h
                    repeat' split at h
                    all_goals cases h
                    all_goals try simp_all [varRefsTyped, varRefsTypedList]
                    all_goals try exact castTo_typed (by simp_all [varRefsTyped, varRefsTypedList]) _
                    all_goals try (rename_i heq; have h3 := varRefsTyped_parenStrip (by simp_all) heq; simp_all [varRefsTyped])
                    all_goals try exact varRefsTyped_parenStrip (by simp_all) rfl
                    all_goals simp_all [varRefsTyped, varRefsTypedList, castTo_typed]
                  · rw [if_neg hc9] at h
                    by_cases hc10 : name = hllCallName
                    · rw [if_pos hc10] at h
                      try dsimp only at h
                      repeat' split at h
                      all_goals cases h
                      all_goals try simp_all [varRefsTyped, varRefsTypedList]
                      all_goals try exact castTo_typed (by simp_all [varRefsTyped, varRefsTypedList]) _
                      all_goals try (rename_i heq; have h3 := varRefsTyped_parenStrip (by simp_all) heq; simp_all [varRefsTyped])
                      all_goals try exact varRefsTyped_parenStrip (by simp_all) rfl
                      all_goals simp_all [varRefsTyped, varRefsTypedList, castTo_typed]
                    · rw [if_neg hc10] at h
                      by_cases hc11 : name = sumCallName ∨ name = minCallName ∨ name = maxCallName ∨ name = avgCallName
                      · rw [if_pos hc11] at h
                        try dsimp only at h
                        repeat' split at h
                        all_goals cases h
                        all_goals try simp_all [varRefsTyped, varRefsTypedList]
                        all_goals try exact castTo_typed (by simp_all [varRefsTyped, varRefsTypedList]) _
                        all_goals try (rename_i heq; have h3 := varRefsTyped_parenStrip (by simp_all) heq; simp_all [varRefsTyped])
                        all_goals try exact varRefsTyped_parenStrip (by simp_all) rfl
                        all_goals simp_all [varRefsTyped, varRefsTypedList, castTo_typed]
                      · rw [if_neg hc11] at h
                        by_cases hc12 : name = lengthCallName ∨ name = containsCallName ∨ name = elementAtCallName
                        · rw [if_pos hc12] at h
                          try dsimp only at h
                          repeat' split at h
                          all_goals cases h
                          all_goals try simp_all [varRefsTyped, varRefsTypedList]
                          all_goals try exact castTo_typed (by simp_all [varRefsTyped, varRefsTypedList]) _
                          all_goals try (rename_i heq; have h3 := varRefsTyped_parenStrip (by simp_all) heq; simp_all [varRefsTyped])
                          all_goals try exact varRefsTyped_parenStrip (by simp_all) rfl
                          all_goals simp_all [varRefsTyped, varRefsTypedList, castTo_typed]
                        · rw [if_neg hc12] at h
                          cases h
                          exact hargs

theorem rewriteCallNode_typed {env : BrokerEnv} {qc : QueryContext}
    {name0 : String} {args : List Expr} {t0 : ExprType} {e' : Expr}
    {qc' : QueryContext} (hargs : varRefsTypedList args = true)
    (h : rewriteCallNode env qc name0 args t0 = some (e', qc')) :
    varRefsTyped e' = true :=
  rewriteCallArm_typed hargs h

theorem expandINLoop_typed {env : BrokerEnv} {lhs : Expr}
    (hl : varRefsTyped lhs = true) :
    ∀ (values : List Expr) (qc : QueryContext) (acc e' : Expr)
      (qc' : QueryContext), varRefsTypedList values = true →
      varRefsTyped acc = true →
      expandINLoop env qc lhs values acc = some (e', qc') →
      varRefsTyped e' = true := by
  intro values
  induction values with
  | nil =>
    intro qc acc e' qc' _ hacc h
    unfold expandINLoop at h
    cases h
    exact hacc
  | cons v rest ih =>
    intro qc acc e' qc' hv hacc h
    simp only [varRefsTypedList, Bool.and_eq_true] at hv
    unfold expandINLoop at h
    repeat' split at h
    all_goals first
      | cases h
      | (refine ih _ _ _ _ hv.2 ?_ h
         have hb := rewriteEqNeq_typed hl hv.1 (by assumption)
         simp_all [varRefsTyped])

theorem expandINop_typed {env : BrokerEnv} {qc : QueryContext} {lhs rhs e' : Expr}
    {qc' : QueryContext} (hl : varRefsTyped lhs = true)
    (hr : varRefsTyped rhs = true)
    (h : expandINop env qc lhs rhs = some (e', qc')) :
    varRefsTyped e' = true := by
  unfold expandINop at h
  dsimp only at h
  cases rhs
  all_goals dsimp only at h
  all_goals first
    | (cases h; rfl)
    | exact expandINLoop_typed hl _ _ _ _ _ (by simpa [varRefsTyped] using hr) (by rfl) h

/-- The typing hypothesis `rewriteNode` needs of a node handed over by the
post-order walker: all its immediate subexpressions are `VarRef`-typed (the
node itself may still be an untyped `VarRef`). -/
def varRefsTypedKids : Expr → Bool
  | .unary _ c _ => varRefsTyped c
  | .binary _ l r _ => varRefsTyped l && varRefsTyped r
  | .call _ args _ => varRefsTypedList args
  | .caseE wts els _ => varRefsTypedPairs wts && varRefsTyped els
  | .paren c => varRefsTyped c
  | _ => true

theorem rewriteNode_typed {env : BrokerEnv} {qc : QueryContext} {e e' : Expr}
    {qc' : QueryContext} (hs : SchemaOK qc) (hk : varRefsTypedKids e = true)
    (h : rewriteNode env qc e = some (e', qc')) (he : qc'.error = none) :
    varRefsTyped e' = true := by
  cases e with
  | varRef v et tid cid dt ed erd hll =>
    simp only [rewriteNode] at h
    exact rewriteVarRefNode_typed hs h he
  | paren c =>
    simp only [rewriteNode] at h
    cases h
    exact hk
  | unary op c t0 =>
    simp only [rewriteNode] at h
    rw [← @Prod.mk.eta _ _ (rewriteUnaryNode _ _ _ _)] at h
    cases h
    exact rewriteUnaryNode_typed hk
  | call n args t0 =>
    simp only [rewriteNode] at h
    exact rewriteCallNode_typed hk h
  | caseE wts els t0 =>
    simp only [rewriteNode] at h
    rw [← @Prod.mk.eta _ _ (rewriteCaseNode _ _ _)] at h
    cases h
    simp only [varRefsTypedKids, Bool.and_eq_true] at hk
    exact rewriteCaseNode_typed hk.1 hk.2
  | binary op lhs rhs t0 =>
    simp only [rewriteNode] at h
    simp only [varRefsTypedKids, Bool.and_eq_true] at hk
    repeat' split at h
    all_goals first
      | (cases h <;> simpa [varRefsTyped, Bool.and_eq_true] using hk)
      | exact rewriteBinaryRest_typed hk.1 hk.2 h
      | exact expandINop_typed hk.1 hk.2 h
      | (cases h <;> (simp only [varRefsTyped]; exact expandINop_typed hk.1 hk.2 (by assumption)))
  | numberLiteral a b c =>
    simp only [rewriteNode] at h
    cases h
    rfl
  | stringLiteral a =>
    simp only [rewriteNode] at h
    cases h
    rfl
  | booleanLiteral a =>
    simp only [rewriteNode] at h
    cases h
    rfl
  | geopointLiteral a =>
    simp only [rewriteNode] at h
    cases h
    rfl
  | wildcard =>
    simp only [rewriteNode] at h
    cases h
    rfl
  | nilExpr =>
    simp only [rewriteNode] at h
    cases h
    rfl


theorem rewriteWalk_typed {env : BrokerEnv} : ∀ (qc : QueryContext) (e : Expr),
    SchemaOK qc → ∀ e' qc', rewriteWalk env qc e = some (e', qc') →
    qc'.error = none → varRefsTyped e' = true := by
  refine rewriteWalk.induct env
    (fun qc e => SchemaOK qc → ∀ e' qc', rewriteWalk env qc e = some (e', qc') →
      qc'.error = none → varRefsTyped e' = true)
    (fun qc ps => ∀ ps' qc', rewriteWalkPairs env qc ps = some (ps', qc') →
      ctxEvolves qc qc' ∧ (SchemaOK qc → qc'.error = none → varRefsTypedPairs ps' = true))
    (fun qc es => ∀ es' qc', rewriteWalkList env qc es = some (es', qc') →
      ctxEvolves qc qc' ∧ (SchemaOK qc → qc'.error = none → varRefsTypedList es' = true))
    ?_ ?_ ?_ ?_ ?_ ?_ ?_ ?_ ?_ ?_ ?_ ?_ ?_ ?_ ?_ ?_ ?_ ?_ ?_ ?_ ?_ ?_
  · intro qc op l r t hl _ hs e' qc' h
    simp only [rewriteWalk, hl] at h
    cases h
  · intro qc op l r t ex qc1 hl hr _ _ hs e' qc' h
    simp only [rewriteWalk, hl, hr] at h
    cases h
  · intro qc op l r t ex qc1 hl ex2 qc2 hr ih1 ih2 hs e' qc' h he
    simp only [rewriteWalk, hl, hr] at h
    have he2 : qc2.error = none := (rewriteNode_evolves h).2.2 he
    have hevr := rewriteWalk_evolves qc1 r _ _ hr
    have he1 : qc1.error = none := hevr.2.2 he2
    have hs1 : SchemaOK qc1 := schemaOK_evolves (rewriteWalk_evolves qc l _ _ hl) hs
    have hs2 : SchemaOK qc2 := schemaOK_evolves hevr hs1
    have ht1 := ih1 hs _ _ hl he1
    have ht2 := ih2 hs1 _ _ hr he2
    exact rewriteNode_typed hs2 (by simp [varRefsTypedKids, ht1, ht2]) h he
  · intro qc c hc _ hs e' qc' h
    simp only [rewriteWalk, hc] at h
    cases h
  · intro qc c ex qc1 hc ih hs e' qc' h he
    simp only [rewriteWalk, hc] at h
    have he1 : qc1.error = none := (rewriteNode_evolves h).2.2 he
    have hs1 : SchemaOK qc1 := schemaOK_evolves (rewriteWalk_evolves qc c _ _ hc) hs
    have ht := ih hs _ _ hc he1
    exact rewriteNode_typed hs1 (by simpa [varRefsTypedKids] using ht) h he
  · intro qc n args t hargs _ hs e' qc' h
    simp only [rewriteWalk, hargs] at h
    cases h
  · intro qc n args t args1 qc1 hargs ih hs e' qc' h he
    simp only [rewriteWalk, hargs] at h
    have he1 : qc1.error = none := (rewriteNode_evolves h).2.2 he
    obtain ⟨hev1, htyp1⟩ := ih _ _ hargs
    have hs1 : SchemaOK qc1 := schemaOK_evolves hev1 hs
    exact rewriteNode_typed hs1 (by simpa [varRefsTypedKids] using htyp1 hs he1) h he
  · intro qc op c t hc _ hs e' qc' h
    simp only [rewriteWalk, hc] at h
    cases h
  · intro qc op c t ex qc1 hc ih hs e' qc' h he
    simp only [rewriteWalk, hc] at h
    have he1 : qc1.error = none := (rewriteNode_evolves h).2.2 he
    have hs1 : SchemaOK qc1 := schemaOK_evolves (rewriteWalk_evolves qc c _ _ hc) hs
    have ht := ih hs _ _ hc he1
    exact rewriteNode_typed hs1 (by simpa [varRefsTypedKids] using ht) h he
  · intro qc wts els t hw _ hs e' qc' h
    simp only [rewriteWalk, hw] at h
    cases h
  · intro qc wts els t wts1 qc1 hw hels _ _ hs e' qc' h
    simp only [rewriteWalk, hw, hels] at h
    cases h
  · intro qc wts els t wts1 qc1 hw ex qc2 hels ih1 ih2 hs e' qc' h he
    simp only [rewriteWalk, hw, hels] at h
    have he2 : qc2.error = none := (rewriteNode_evolves h).2.2 he
    have hevels := rewriteWalk_evolves qc1 els _ _ hels
    have he1 : qc1.error = none := hevels.2.2 he2
    obtain ⟨hev1, htyp1⟩ := ih1 _ _ hw
    have hs1 : SchemaOK qc1 := schemaOK_evolves hev1 hs
    have hs2 : SchemaOK qc2 := schemaOK_evolves hevels hs1
    have htw := htyp1 hs he1
    have hte := ih2 hs1 _ _ hels he2
    exact rewriteNode_typed hs2 (by simp [varRefsTypedKids, htw, hte]) h he
  · intro qc other h1 h2 h3 h4 h5 hs e' qc' h he
    have hkids : varRefsTypedKids other = true := by
      cases other
      case binary op l r t => exact absurd rfl (fun hh => h1 op l r t hh)
      case paren c => exact absurd rfl (fun hh => h2 c hh)
      case call n args t => exact absurd rfl (fun hh => h3 n args t hh)
      case unary op c t => exact absurd rfl (fun hh => h4 op c t hh)
      case caseE wts els t => exact absurd rfl (fun hh => h5 wts els t hh)
      all_goals rfl
    cases other
    case binary op l r t => exact absurd rfl (fun hh => h1 op l r t hh)
    case paren c => exact absurd rfl (fun hh => h2 c hh)
    case call n args t => exact absurd rfl (fun hh => h3 n args t hh)
    case unary op c t => exact absurd rfl (fun hh => h4 op c t hh)
    case caseE wts els t => exact absurd rfl (fun hh => h5 wts els t hh)
    all_goals simp only [rewriteWalk] at h
    all_goals exact rewriteNode_typed hs hkids h he
  · intro qc es' qc' h
    unfold rewriteWalkList at h
    cases h
    exact ⟨ctxEvolves_refl _, fun _ _ => rfl⟩
  · intro qc e rest he0 _ es' qc' h
    simp only [rewriteWalkList, he0] at h
    cases h
  · intro qc e rest ex qc1 he0 hrest _ _ es' qc' h
    simp only [rewriteWalkList, he0, hrest] at h
    cases h
  · intro qc e rest ex qc1 he0 args1 qc2 hrest ih1 ih2 es' qc' h
    simp only [rewriteWalkList, he0, hrest] at h
    cases h
    obtain ⟨hev2, htyp2⟩ := ih2 _ _ hrest
    have hev1 := rewriteWalk_evolves qc e _ _ he0
    refine ⟨ctxEvolves_trans hev1 hev2, ?_⟩
    intro hs he
    have he1 : qc1.error = none := hev2.2.2 he
    have hs1 : SchemaOK qc1 := schemaOK_evolves hev1 hs
    simp only [varRefsTypedList, Bool.and_eq_true]
    exact ⟨ih1 hs _ _ he0 he1, htyp2 hs1 he⟩
  · intro qc ps' qc' h
    unfold rewriteWalkPairs at h
    cases h
    exact ⟨ctxEvolves_refl _, fun _ _ => rfl⟩
  · intro qc w t rest hw _ ps' qc' h
    simp only [rewriteWalkPairs, hw] at h
    cases h
  · intro qc w t rest ex qc1 hw ht _ _ ps' qc' h
    simp only [rewriteWalkPairs, hw, ht] at h
    cases h
  · intro qc w t rest ex qc1 hw ex2 qc2 ht hrest _ _ _ ps' qc' h
    simp only [rewriteWalkPairs, hw, ht, hrest] at h
    cases h
  · intro qc w t rest ex qc1 hw ex2 qc2 ht wts1 qc3 hrest ih1 ih2 ih3 ps' qc' h
    simp only [rewriteWalkPairs, hw, ht, hrest] at h
    cases h
    obtain ⟨hev3, htyp3⟩ := ih3 _ _ hrest
    have hev1 := rewriteWalk_evolves qc w _ _ hw
    have hev2 := rewriteWalk_evolves qc1 t _ _ ht
    refine ⟨ctxEvolves_trans hev1 (ctxEvolves_trans hev2 hev3), ?_⟩
    intro hs he
    have he2 : qc2.error = none := hev3.2.2 he
    have he1 : qc1.error = none := hev2.2.2 he2
    have hs1 : SchemaOK qc1 := schemaOK_evolves hev1 hs
    have hs2 : SchemaOK qc2 := schemaOK_evolves hev2 hs1
    simp only [varRefsTypedPairs, Bool.and_eq_true]
    exact ⟨⟨ih1 hs _ _ hw he1, ih2 hs1 _ _ ht he2⟩, htyp3 hs2 he⟩

/-- A parser oracle for the C1 scenario: the measure `count(c)` and the
wildcard dimension `*`. -/
def envC1 : BrokerEnv :=
  { parseExpr := fun s =>
      if s = "*" then .ok .wildcard
      else if s = "count(c)" then
        .ok (.call "count" [.varRef "c" .UnknownType (-1) (-1) .UnknownDT none [] false] .UnknownType)
      else .error "parse error",
    getSchema := fun s => if s = "t" then .ok schemaWild else .error "unknown table",
    tzOffsetNow := fun _ => .error "unused",
    geoPointFromString := fun _ => .error "unused" }

/-- The C1 query: an aggregation query (one `count` measure) with the single
raw dimension `*`. -/
def aqlC1 : AQLQuery :=
  { table := "t", joins := [],
    measures := [⟨"count(c)", .nilExpr, [], []⟩],
    dimensions := [⟨"*", .nilExpr⟩], filters := [], filtersParsed := [],
    limit := 0, supportingMeasures := [], supportingDimensions := [] }

def cVarC1 : Expr := .varRef "c" .Unsigned 0 2 .Uint8 none [] false

/-- The C1 context after `readSchema`. -/
def qcC1S : QueryContext :=
  { aqlQuery := aqlC1, isNonAggregationQuery := false, returnHLLBinary := false,
    error := none, tables := [schemaWild], tableIDByAlias := [("t", 0)],
    numDimsPerDimWidth := [0, 0, 0, 0], dimensionEnumReverseDicts := [],
    dimensionVectorIndex := [], dimRowBytes := 0 }

def aqlC1M : AQLQuery :=
  { aqlC1 with measures := [⟨"count(c)", .call "count" [cVarC1] .Unsigned, [], []⟩] }

/-- The C1 context after `processMeasures`. -/
def qcC1M : QueryContext := { qcC1S with aqlQuery := aqlC1M }

def aqlC1D : AQLQuery := { aqlC1M with dimensions := [⟨"*", .wildcard⟩] }

/-- The C1 context after `processDimensions`: the wildcard dimension was kept
(aggregation query), only parsed to `Expr.wildcard`. -/
def qcC1D : QueryContext :=
  { qcC1M with aqlQuery := aqlC1D, dimensionVectorIndex := [0] }

/-- The C1 context `Compile` returns: error-free, with the wildcard
dimension still of `UnknownType`. -/
def qcC1F : QueryContext :=
  { qcC1D with numDimsPerDimWidth := [0, 1, 0, 0], dimRowBytes := 5 }

theorem normalizeAndFilters_nil : normalizeAndFilters ([] : List Expr) = [] := by
  unfold normalizeAndFilters
  rw [normGo_halt]
  simp

theorem c1varC : rewriteWalk envC1 qcC1S
    (.varRef "c" .UnknownType (-1) (-1) .UnknownDT none [] false) =
    some (cVarC1, qcC1S) := by
  simp only [rewriteWalk]
  rfl

theorem c1listC : rewriteWalkList envC1 qcC1S
    [.varRef "c" .UnknownType (-1) (-1) .UnknownDT none [] false] =
    some ([cVarC1], qcC1S) := by
  simp only [rewriteWalkList, c1varC]

theorem c1callC : rewriteWalk envC1 qcC1S
    (.call "count" [.varRef "c" .UnknownType (-1) (-1) .UnknownDT none [] false] .UnknownType) =
    some (.call "count" [cVarC1] .Unsigned, qcC1S) := by
  simp only [rewriteWalk, c1listC]
  rfl

theorem c1loop : processMeasuresLoop envC1 qcC1S qcC1S.aqlQuery.measures =
    some ([⟨"count(c)", .call "count" [cVarC1] .Unsigned, [], []⟩], qcC1S) := by
  show (match rewriteWalk envC1 qcC1S (.call "count" [.varRef "c" .UnknownType (-1) (-1) .UnknownDT none [] false] .UnknownType) with
    | none => none
    | some (e1, qc1) =>
      if qc1.error.isSome then some ([(⟨"count(c)", .nilExpr, [], []⟩ : Measure)], qc1)
      else match parseRewriteFilters envC1 qc1 [] with
        | none => none
        | some (fps, qc2) =>
          if qc2.error.isSome then some ([(⟨"count(c)", .nilExpr, [], []⟩ : Measure)], qc2)
          else match processMeasuresLoop envC1 qc2 [] with
            | none => none
            | some (ms2, qc3) => some (({(⟨"count(c)", .nilExpr, [], []⟩ : Measure) with exprParsed := e1, filtersParsed := normalizeAndFilters fps}) :: ms2, qc3)) = _
  rw [c1callC]
  simp only [parseRewriteFilters, processMeasuresLoop, normalizeAndFilters_nil,
    show qcC1S.error = none from rfl, Option.isSome_none]
  rfl

theorem c1meas : processMeasures envC1 qcC1S = some qcC1M := by
  simp only [processMeasures, c1loop]
  rfl

theorem c1wild : rewriteWalk envC1 qcC1D .wildcard = some (.wildcard, qcC1D) := by
  simp only [rewriteWalk]
  rfl

theorem c1dimloop : rewriteDimsLoop envC1 qcC1D 0 [⟨"*", Expr.wildcard⟩] =
    some ([⟨"*", Expr.wildcard⟩], qcC1D) := by
  show (match rewriteWalk envC1 qcC1D Expr.wildcard with
    | none => none
    | some (e1, qc1) =>
      let qc2 :=
        match e1 with
        | .varRef _ _ _ _ _ _ erd _ =>
          if erd.length > 0 then
            { qc1 with dimensionEnumReverseDicts := qc1.dimensionEnumReverseDicts ++ [(0, erd)] }
          else qc1
        | _ => qc1
      match rewriteDimsLoop envC1 qc2 (0 + 1) [] with
      | none => none
      | some (ds, qc3) => some (({ expr := "*", exprParsed := Expr.wildcard } : Dimension) :: ds, qc3)) = _
  rw [c1wild]
  rfl

theorem c1dims : processDimensions envC1 qcC1M = some qcC1D := by
  show (match rewriteDimsLoop envC1 qcC1D 0 [⟨"*", Expr.wildcard⟩] with
    | none => none
    | some (ds2, qc2) =>
      some { qc2 with aqlQuery := { qc2.aqlQuery with dimensions := ds2 } }) = _
  rw [c1dimloop]
  rfl

theorem c1compile : Compile envC1 (NewQueryContext aqlC1 false) = some qcC1F := by
  show (match processMeasures envC1 qcC1S with
    | none => none
    | some qcM =>
      if qcM.error.isSome then some qcM
      else
        match processDimensions envC1 qcM with
        | none => none
        | some qcD =>
          if qcD.error.isSome then some qcD
          else
            match processFilters envC1 qcD with
            | none => none
            | some qcF =>
              if qcF.error.isSome then some qcF
              else some (sortDimensionColumns qcF)) = _
  rw [c1meas]
  simp only [show qcC1M.error = none from rfl, Option.isSome_none]
  show (match processDimensions envC1 qcC1M with
    | none => none
    | some qcD =>
      if qcD.error.isSome then some qcD
      else
        match processFilters envC1 qcD with
        | none => none
        | some qcF =>
          if qcF.error.isSome then some qcF
          else some (sortDimensionColumns qcF)) = _
  rw [c1dims]
  simp only [show qcC1D.error = none from rfl, Option.isSome_none]
  show (match processFilters envC1 qcC1D with
    | none => none
    | some qcF =>
      if qcF.error.isSome then some qcF
      else some (sortDimensionColumns qcF)) = _
  rw [show processFilters envC1 qcC1D =
    some { qcC1D with aqlQuery := { qcC1D.aqlQuery with filtersParsed := normalizeAndFilters [] } } from rfl]
  rw [normalizeAndFilters_nil]
  rfl

/-- C1 counterexample: `Compile` of the aggregation query with dimension `*`
finishes without setting the error, yet the resulting query keeps the
`Wildcard` dimension whose expression type is `UnknownType` — the claimed
universal typing of reachable nodes fails exactly on the case the claim
singles out (a wildcard dimension in an aggregation query). -/
theorem claim1_counterexample :
    ∃ qc', Compile envC1 (NewQueryContext aqlC1 false) = some qc' ∧
      qc'.error = none ∧
      (NewQueryContext aqlC1 false).isNonAggregationQuery = false ∧
      ∃ d, d ∈ qc'.aqlQuery.dimensions ∧ d.exprParsed.type = ExprType.UnknownType := by
  refine ⟨qcC1F, c1compile, rfl, rfl, ⟨"*", Expr.wildcard⟩, ?_, rfl⟩
  show (⟨"*", Expr.wildcard⟩ : Dimension) ∈ [(⟨"*", Expr.wildcard⟩ : Dimension)]
  exact List.mem_singleton.mpr rfl

/-- C1 (amended): over a context whose bound schemas carry only column types
that translate to non-`Unknown` expression types, every expression produced
by an error-free `Rewrite` walk has all its `VarRef` nodes typed — every
`VarRef` the rewriter leaves in place or creates carries an expression type
different from `UnknownType`.  (The original claim fails for non-`VarRef`
nodes: a `Wildcard` dimension of an aggregation query survives `Compile`
error-free with `UnknownType`.) -/
theorem claim1_varref_typing (env : BrokerEnv) (qc : QueryContext) (e e' : Expr)
    (qc' : QueryContext) (hs : SchemaOK qc)
    (h : rewriteWalk env qc e = some (e', qc')) (he : qc'.error = none) :
    varRefsTyped e' = true :=
  rewriteWalk_typed qc e hs e' qc' h he

/-- Witness for C1 (amended): rewriting `count(c)` over the bound schema
types the `c` column `Unsigned`, and the walk output is `VarRef`-typed. -/
theorem claim1_varref_typing_witness :
    SchemaOK qcC1S ∧
    rewriteWalk envC1 qcC1S
      (.call "count" [.varRef "c" .UnknownType (-1) (-1) .UnknownDT none [] false] .UnknownType) =
      some (.call "count" [cVarC1] .Unsigned, qcC1S) ∧
    varRefsTyped (.call "count" [cVarC1] .Unsigned) = true := by
  have hs : SchemaOK qcC1S := by
    intro t ht dt hdt
    simp only [qcC1S, List.mem_singleton] at ht
    subst ht
    simp only [schemaWild, List.mem_cons, List.not_mem_nil, or_false] at hdt
    rcases hdt with rfl | rfl | rfl | rfl <;> decide
  exact ⟨hs, c1callC,
    claim1_varref_typing envC1 qcC1S _ _ qcC1S hs c1callC rfl⟩

/-! ### C8: dimension layout (width-bucketed ordering) -/

/-- Byte width of a dimension (abbreviation used by the layout lemmas). -/
def dimWidth (d : Dimension) : Nat := getDimensionDataBytes d.exprParsed

/-- Successive in-place writes: set positions `idxs` to `start`, `start + 1`,
and so on. -/
def setSeq (dvi : List Nat) (idxs : List Nat) (start : Nat) : List Nat :=
  match idxs with
  | [] => dvi
  | i :: rest => setSeq (dvi.set i start) rest (start + 1)

/-- Origin indices (offset by `base`) of the dimensions whose byte width is
`bw`, in original order. -/
def matchedIdx (bw : Nat) (dims : List Dimension) (base : Nat) : List Nat :=
  match dims with
  | [] => []
  | d :: rest =>
    if dimWidth d = bw then base :: matchedIdx bw rest (base + 1)
    else matchedIdx bw rest (base + 1)

theorem sortPass_eq (bw : Nat) : ∀ (dims : List Dimension) (base : Nat) (dvi : List Nat)
    (oi rb cnt : Nat),
    sortPass bw dims base dvi oi rb cnt =
      (setSeq dvi (matchedIdx bw dims base) oi,
       oi + (matchedIdx bw dims base).length,
       rb + bw * (matchedIdx bw dims base).length,
       cnt + (matchedIdx bw dims base).length) := by
  intro dims
  induction dims with
  | nil => intro base dvi oi rb cnt; simp [sortPass, matchedIdx, setSeq]
  | cons d rest ih =>
    intro base dvi oi rb cnt
    by_cases h : getDimensionDataBytes d.exprParsed = bw
    · simp only [sortPass, matchedIdx, dimWidth]
      rw [if_pos h, if_pos h, ih]
      simp only [setSeq, List.length_cons, Prod.mk.injEq, Nat.mul_succ, h]
      refine ⟨trivial, ?_, ?_, ?_⟩ <;> omega
    · simp only [sortPass, matchedIdx, dimWidth]
      rw [if_neg h, if_neg h]
      exact ih (base + 1) dvi oi rb cnt

theorem setSeq_append (a b : List Nat) : ∀ (dvi : List Nat) (s : Nat),
    setSeq dvi (a ++ b) s = setSeq (setSeq dvi a s) b (s + a.length) := by
  induction a with
  | nil => intro dvi s; simp [setSeq]
  | cons x xs ih =>
    intro dvi s
    show setSeq (dvi.set x s) (xs ++ b) (s + 1)
      = setSeq (setSeq (dvi.set x s) xs (s + 1)) b (s + (x :: xs).length)
    rw [ih]
    congr 1
    simp [List.length_cons]
    omega

theorem setSeq_length (idxs : List Nat) : ∀ (dvi : List Nat) (s : Nat),
    (setSeq dvi idxs s).length = dvi.length := by
  induction idxs with
  | nil => intro dvi s; rfl
  | cons x xs ih => intro dvi s; simp [setSeq, ih]

theorem setSeq_getElem (idxs : List Nat) : ∀ (dvi : List Nat) (s i : Nat)
    (hi : i < dvi.length) (hi2 : i < (setSeq dvi idxs s).length), idxs.Nodup →
    (setSeq dvi idxs s)[i] =
      if i ∈ idxs then s + idxs.indexOf i else dvi[i] := by
  induction idxs with
  | nil => intro dvi s i hi hi2 _; simp [setSeq]
  | cons j rest ih =>
    intro dvi s i hi hi2 hnd
    have hnd' := List.nodup_cons.mp hnd
    simp only [setSeq]
    rw [ih (dvi.set j s) (s + 1) i (by simpa using hi)
      (by rw [setSeq_length]; simpa using hi) hnd'.2]
    by_cases hmem : i ∈ rest
    · have hij : j ≠ i := by
        intro hh
        subst hh
        exact hnd'.1 hmem
      rw [if_pos hmem, if_pos (List.mem_cons_of_mem j hmem)]
      rw [List.indexOf_cons_ne rest hij]
      omega
    · by_cases hij : i = j
      · subst hij
        rw [if_neg hmem, if_pos (List.mem_cons_self i rest)]
        rw [List.indexOf_cons_self]
        rw [List.getElem_set_self (by simpa using hi)]
        omega
      · rw [if_neg hmem, if_neg (by simp [hij, hmem])]
        exact List.getElem_set_of_ne (fun hh => hij hh.symm) s (by simpa using hi)

theorem matchedIdx_ge (bw : Nat) : ∀ (dims : List Dimension) (base x : Nat),
    x ∈ matchedIdx bw dims base → base ≤ x := by
  intro dims
  induction dims with
  | nil => intro base x hx; simp [matchedIdx] at hx
  | cons d rest ih =>
    intro base x hx
    simp only [matchedIdx] at hx
    by_cases h : dimWidth d = bw
    · rw [if_pos h] at hx
      rcases List.mem_cons.mp hx with rfl | hx2
      · exact Nat.le_refl x
      · exact Nat.le_of_succ_le (ih (base + 1) x hx2)
    · rw [if_neg h] at hx
      exact Nat.le_of_succ_le (ih (base + 1) x hx)

theorem matchedIdx_sorted (bw : Nat) : ∀ (dims : List Dimension) (base : Nat),
    (matchedIdx bw dims base).Sorted (· < ·) := by
  intro dims
  induction dims with
  | nil => intro base; simp [matchedIdx]
  | cons d rest ih =>
    intro base
    simp only [matchedIdx]
    by_cases h : dimWidth d = bw
    · rw [if_pos h]
      rw [List.sorted_cons]
      refine ⟨fun x hx => ?_, ih (base + 1)⟩
      exact Nat.lt_of_succ_le (matchedIdx_ge bw rest (base + 1) x hx)
    · rw [if_neg h]
      exact ih (base + 1)

theorem matchedIdx_shift (bw : Nat) : ∀ (dims : List Dimension) (base : Nat),
    matchedIdx bw dims (base + 1) = (matchedIdx bw dims base).map (· + 1) := by
  intro dims
  induction dims with
  | nil => intro base; simp [matchedIdx]
  | cons d rest ih =>
    intro base
    simp only [matchedIdx]
    by_cases h : dimWidth d = bw
    · rw [if_pos h, if_pos h]
      simp [List.map_cons, ih (base + 1)]
    · rw [if_neg h, if_neg h]
      exact ih (base + 1)

theorem matchedIdx_mem (bw : Nat) : ∀ (dims : List Dimension) (i : Nat),
    i ∈ matchedIdx bw dims 0 ↔ ∃ hi : i < dims.length, dimWidth dims[i] = bw := by
  intro dims
  induction dims with
  | nil => intro i; simp [matchedIdx]
  | cons d rest ih =>
    intro i
    simp only [matchedIdx, matchedIdx_shift]
    cases i with
    | zero =>
      by_cases h : dimWidth d = bw
      · rw [if_pos h]
        simp [h]
      · rw [if_neg h]
        simp [h]
    | succ k =>
      have hk : (k + 1 ∈ (matchedIdx bw rest 0).map (· + 1)) ↔ k ∈ matchedIdx bw rest 0 := by
        simp
      by_cases h : dimWidth d = bw
      · rw [if_pos h]
        simp only [List.mem_cons, hk, ih k]
        constructor
        · rintro (hh | ⟨hlt, hw⟩)
          · omega
          · exact ⟨by simpa using Nat.succ_lt_succ hlt, by simpa using hw⟩
        · rintro ⟨hlt, hw⟩
          exact Or.inr ⟨Nat.lt_of_succ_lt_succ (by simpa using hlt), by simpa using hw⟩
      · rw [if_neg h]
        rw [hk, ih k]
        constructor
        · rintro ⟨hlt, hw⟩
          exact ⟨by simpa using Nat.succ_lt_succ hlt, by simpa using hw⟩
        · rintro ⟨hlt, hw⟩
          exact ⟨Nat.lt_of_succ_lt_succ (by simpa using hlt), by simpa using hw⟩

theorem matchedIdx_nodup (bw : Nat) (dims : List Dimension) (base : Nat) :
    (matchedIdx bw dims base).Nodup :=
  (matchedIdx_sorted bw dims base).nodup

theorem indexOf_lt_indexOf_of_sorted {l : List Nat} (hs : l.Sorted (· < ·))
    {i j : Nat} (hi : i ∈ l) (hj : j ∈ l) (hij : i < j) :
    l.indexOf i < l.indexOf j := by
  have hi' := List.indexOf_lt_length.mpr hi
  have hj' := List.indexOf_lt_length.mpr hj
  rcases Nat.lt_trichotomy (l.indexOf i) (l.indexOf j) with h | h | h
  · exact h
  · exfalso
    have h1 : l[l.indexOf i]? = some i := by
      rw [List.getElem?_eq_getElem hi', List.getElem_indexOf hi']
    have h2 : l[l.indexOf j]? = some j := by
      rw [List.getElem?_eq_getElem hj', List.getElem_indexOf hj']
    rw [h] at h1
    have h3 := h1.symm.trans h2
    simp at h3
    omega
  · exfalso
    have := (List.pairwise_iff_getElem.mp hs) _ _ hj' hi' h
    rw [List.getElem_indexOf hi', List.getElem_indexOf hj'] at this
    omega

theorem matchedIdx_length_cons (w : Nat) (d : Dimension) (rest : List Dimension) :
    (matchedIdx w (d :: rest) 0).length =
      (if dimWidth d = w then 1 else 0) + (matchedIdx w rest 0).length := by
  simp only [matchedIdx]
  by_cases h : dimWidth d = w
  · rw [if_pos h, if_pos h]
    simp [matchedIdx_shift]
    omega
  · rw [if_neg h, if_neg h]
    simp [matchedIdx_shift]

theorem matched_width_sum : ∀ (dims : List Dimension),
    (∀ d ∈ dims, dimWidth d = 8 ∨ dimWidth d = 4 ∨ dimWidth d = 2 ∨ dimWidth d = 1) →
    8 * (matchedIdx 8 dims 0).length + 4 * (matchedIdx 4 dims 0).length +
      2 * (matchedIdx 2 dims 0).length + 1 * (matchedIdx 1 dims 0).length =
      (dims.map dimWidth).sum := by
  intro dims
  induction dims with
  | nil => intro _; simp [matchedIdx]
  | cons d rest ih =>
    intro hw
    have hrest := ih (fun x hx => hw x (List.mem_cons_of_mem d hx))
    simp only [List.map_cons, List.sum_cons, matchedIdx_length_cons]
    rcases hw d (List.mem_cons_self d rest) with h | h | h | h <;>
      rw [h] <;> norm_num <;> omega

/-- The concatenated bucket order: width-8 origins first, then 4, 2, 1. -/
def bucketConcat (dims : List Dimension) : List Nat :=
  matchedIdx 8 dims 0 ++ (matchedIdx 4 dims 0 ++ (matchedIdx 2 dims 0 ++ matchedIdx 1 dims 0))

theorem bucketConcat_mem (dims : List Dimension)
    (hw : ∀ d ∈ dims, dimWidth d = 8 ∨ dimWidth d = 4 ∨ dimWidth d = 2 ∨ dimWidth d = 1)
    (x : Nat) : x ∈ bucketConcat dims ↔ x < dims.length := by
  simp only [bucketConcat, List.mem_append, matchedIdx_mem]
  constructor
  · rintro (⟨hx, -⟩ | ⟨hx, -⟩ | ⟨hx, -⟩ | ⟨hx, -⟩) <;> exact hx
  · intro hx
    rcases hw dims[x] (List.getElem_mem hx) with h | h | h | h
    · exact Or.inl ⟨hx, h⟩
    · exact Or.inr (Or.inl ⟨hx, h⟩)
    · exact Or.inr (Or.inr (Or.inl ⟨hx, h⟩))
    · exact Or.inr (Or.inr (Or.inr ⟨hx, h⟩))

theorem matchedIdx_disjoint (dims : List Dimension) (w w' : Nat) (hne : w ≠ w') :
    (matchedIdx w dims 0).Disjoint (matchedIdx w' dims 0) := by
  intro x hx hx'
  obtain ⟨h1, h2⟩ := (matchedIdx_mem w dims x).mp hx
  obtain ⟨h1', h2'⟩ := (matchedIdx_mem w' dims x).mp hx'
  exact hne (h2 ▸ h2')

theorem bucketConcat_nodup (dims : List Dimension) : (bucketConcat dims).Nodup := by
  have n8 := matchedIdx_nodup 8 dims 0
  have n4 := matchedIdx_nodup 4 dims 0
  have n2 := matchedIdx_nodup 2 dims 0
  have n1 := matchedIdx_nodup 1 dims 0
  refine List.Nodup.append n8 ?_ ?_
  · refine List.Nodup.append n4 ?_ ?_
    · refine List.Nodup.append n2 n1 (matchedIdx_disjoint dims 2 1 (by omega))
    · intro x hx hx'
      rcases List.mem_append.mp hx' with h | h
      · exact matchedIdx_disjoint dims 4 2 (by omega) hx h
      · exact matchedIdx_disjoint dims 4 1 (by omega) hx h
  · intro x hx hx'
    rcases List.mem_append.mp hx' with h | h
    · exact matchedIdx_disjoint dims 8 4 (by omega) hx h
    rcases List.mem_append.mp h with h2 | h2
    · exact matchedIdx_disjoint dims 8 2 (by omega) hx h2
    · exact matchedIdx_disjoint dims 8 1 (by omega) hx h2

theorem bucketConcat_perm_range (dims : List Dimension)
    (hw : ∀ d ∈ dims, dimWidth d = 8 ∨ dimWidth d = 4 ∨ dimWidth d = 2 ∨ dimWidth d = 1) :
    (bucketConcat dims).Perm (List.range dims.length) := by
  refine List.perm_of_nodup_nodup_toFinset_eq (bucketConcat_nodup dims)
    (List.nodup_range dims.length) ?_
  ext x
  simp only [List.mem_toFinset, List.mem_range, bucketConcat_mem dims hw]

theorem bucketConcat_indexOf (dims : List Dimension) (x : Nat) (hx : x < dims.length) :
    (dimWidth dims[x] = 8 →
      (bucketConcat dims).indexOf x = (matchedIdx 8 dims 0).indexOf x) ∧
    (dimWidth dims[x] = 4 →
      (bucketConcat dims).indexOf x =
        (matchedIdx 8 dims 0).length + (matchedIdx 4 dims 0).indexOf x) ∧
    (dimWidth dims[x] = 2 →
      (bucketConcat dims).indexOf x =
        (matchedIdx 8 dims 0).length + (matchedIdx 4 dims 0).length +
          (matchedIdx 2 dims 0).indexOf x) ∧
    (dimWidth dims[x] = 1 →
      (bucketConcat dims).indexOf x =
        (matchedIdx 8 dims 0).length + (matchedIdx 4 dims 0).length +
          (matchedIdx 2 dims 0).length + (matchedIdx 1 dims 0).indexOf x) := by
  have hmem : ∀ w, x ∈ matchedIdx w dims 0 ↔ dimWidth dims[x] = w := by
    intro w
    rw [matchedIdx_mem]
    exact ⟨fun h => h.2, fun h => ⟨hx, h⟩⟩
  refine ⟨?_, ?_, ?_, ?_⟩ <;> intro hwv
  · rw [bucketConcat, List.indexOf_append_of_mem ((hmem 8).mpr hwv)]
  · rw [bucketConcat,
      List.indexOf_append_of_not_mem (fun hc => by have := (hmem 8).mp hc; omega),
      List.indexOf_append_of_mem ((hmem 4).mpr hwv)]
  · rw [bucketConcat,
      List.indexOf_append_of_not_mem (fun hc => by have := (hmem 8).mp hc; omega),
      List.indexOf_append_of_not_mem (fun hc => by have := (hmem 4).mp hc; omega),
      List.indexOf_append_of_mem ((hmem 2).mpr hwv)]
    omega
  · rw [bucketConcat,
      List.indexOf_append_of_not_mem (fun hc => by have := (hmem 8).mp hc; omega),
      List.indexOf_append_of_not_mem (fun hc => by have := (hmem 4).mp hc; omega),
      List.indexOf_append_of_not_mem (fun hc => by have := (hmem 2).mp hc; omega)]
    omega

theorem bucketConcat_indexOf_lt (dims : List Dimension)
    (hw : ∀ d ∈ dims, dimWidth d = 8 ∨ dimWidth d = 4 ∨ dimWidth d = 2 ∨ dimWidth d = 1)
    (i j : Nat) (hi : i < dims.length) (hj : j < dims.length)
    (hcond : dimWidth dims[i] > dimWidth dims[j] ∨
      (dimWidth dims[i] = dimWidth dims[j] ∧ i < j)) :
    (bucketConcat dims).indexOf i < (bucketConcat dims).indexOf j := by
  obtain ⟨ki8, ki4, ki2, ki1⟩ := bucketConcat_indexOf dims i hi
  obtain ⟨kj8, kj4, kj2, kj1⟩ := bucketConcat_indexOf dims j hj
  have hwi := hw dims[i] (List.getElem_mem hi)
  have hwj := hw dims[j] (List.getElem_mem hj)
  have same : ∀ w, dimWidth dims[i] = w → dimWidth dims[j] = w → i < j →
      (matchedIdx w dims 0).indexOf i < (matchedIdx w dims 0).indexOf j := by
    intro w h1 h2 hij
    exact indexOf_lt_indexOf_of_sorted (matchedIdx_sorted w dims 0)
      ((matchedIdx_mem w dims i).mpr ⟨hi, h1⟩) ((matchedIdx_mem w dims j).mpr ⟨hj, h2⟩) hij
  have bound : ∀ w x (hxx : x < dims.length), dimWidth dims[x] = w →
      (matchedIdx w dims 0).indexOf x < (matchedIdx w dims 0).length := by
    intro w x hxx hwx
    exact List.indexOf_lt_length.mpr ((matchedIdx_mem w dims x).mpr ⟨hxx, hwx⟩)
  rcases hwi with h8i | h4i | h2i | h1i <;> rcases hwj with h8j | h4j | h2j | h1j
  · rw [ki8 h8i, kj8 h8j]
    rw [h8i, h8j] at hcond
    rcases hcond with hgt | ⟨-, hij⟩
    · omega
    · exact same 8 h8i h8j hij
  · rw [ki8 h8i, kj4 h4j]
    have := bound 8 i hi h8i
    omega
  · rw [ki8 h8i, kj2 h2j]
    have := bound 8 i hi h8i
    omega
  · rw [ki8 h8i, kj1 h1j]
    have := bound 8 i hi h8i
    omega
  · rw [h4i, h8j] at hcond
    exact absurd hcond (by omega)
  · rw [ki4 h4i, kj4 h4j]
    rw [h4i, h4j] at hcond
    rcases hcond with hgt | ⟨-, hij⟩
    · omega
    · have := same 4 h4i h4j hij
      omega
  · rw [ki4 h4i, kj2 h2j]
    have := bound 4 i hi h4i
    omega
  · rw [ki4 h4i, kj1 h1j]
    have := bound 4 i hi h4i
    omega
  · rw [h2i, h8j] at hcond
    exact absurd hcond (by omega)
  · rw [h2i, h4j] at hcond
    exact absurd hcond (by omega)
  · rw [ki2 h2i, kj2 h2j]
    rw [h2i, h2j] at hcond
    rcases hcond with hgt | ⟨-, hij⟩
    · omega
    · have := same 2 h2i h2j hij
      omega
  · rw [ki2 h2i, kj1 h1j]
    have := bound 2 i hi h2i
    omega
  · rw [h1i, h8j] at hcond
    exact absurd hcond (by omega)
  · rw [h1i, h4j] at hcond
    exact absurd hcond (by omega)
  · rw [h1i, h2j] at hcond
    exact absurd hcond (by omega)
  · rw [ki1 h1i, kj1 h1j]
    rw [h1i, h1j] at hcond
    rcases hcond with hgt | ⟨-, hij⟩
    · omega
    · have := same 1 h1i h1j hij
      omega

theorem sortBuckets_eq4 (dims : List Dimension) (c1 c2 c3 c4 : Nat) (dvi : List Nat)
    (rb : Nat) :
    sortBuckets dims 8 [c1, c2, c3, c4] dvi 0 rb =
      ([c1 + (matchedIdx 8 dims 0).length, c2 + (matchedIdx 4 dims 0).length,
        c3 + (matchedIdx 2 dims 0).length, c4 + (matchedIdx 1 dims 0).length],
       setSeq dvi (bucketConcat dims) 0,
       rb + 8 * (matchedIdx 8 dims 0).length + 4 * (matchedIdx 4 dims 0).length +
         2 * (matchedIdx 2 dims 0).length + 1 * (matchedIdx 1 dims 0).length) := by
  simp only [sortBuckets, sortPass_eq]
  norm_num
  rw [bucketConcat, setSeq_append, setSeq_append, setSeq_append]
  simp

/-- **C8.** After `sortDimensionColumns` — with the spec's four width buckets
and every dimension's byte width in `{8, 4, 2, 1}` — `DimensionVectorIndex`
has the same length as the dimension list and is a permutation of
`0..len(Dimensions)-1` in which assigned positions grow as the byte width
decreases through the buckets 8, 4, 2, 1 (ties keep original order), and
`DimRowBytes` equals the sum of the dimensions' data byte widths plus one
byte per dimension; with an empty dimension list `DimRowBytes` is 0. -/
theorem claim8_sort_dimensions (qc : QueryContext) (c1 c2 c3 c4 : Nat)
    (hc : qc.numDimsPerDimWidth = [c1, c2, c3, c4])
    (hrb : qc.dimRowBytes = 0)
    (hw : ∀ d ∈ qc.aqlQuery.dimensions, dimWidth d = 8 ∨ dimWidth d = 4 ∨
      dimWidth d = 2 ∨ dimWidth d = 1) :
    (sortDimensionColumns qc).dimensionVectorIndex.length = qc.aqlQuery.dimensions.length ∧
    (sortDimensionColumns qc).dimensionVectorIndex.Perm
      (List.range qc.aqlQuery.dimensions.length) ∧
    (∀ i j (hi : i < qc.aqlQuery.dimensions.length)
        (hj : j < qc.aqlQuery.dimensions.length),
      (dimWidth qc.aqlQuery.dimensions[i] > dimWidth qc.aqlQuery.dimensions[j] ∨
        (dimWidth qc.aqlQuery.dimensions[i] = dimWidth qc.aqlQuery.dimensions[j] ∧ i < j)) →
      (sortDimensionColumns qc).dimensionVectorIndex.getD i 0 <
        (sortDimensionColumns qc).dimensionVectorIndex.getD j 0) ∧
    (sortDimensionColumns qc).dimRowBytes =
      (qc.aqlQuery.dimensions.map dimWidth).sum + qc.aqlQuery.dimensions.length ∧
    (qc.aqlQuery.dimensions = [] → (sortDimensionColumns qc).dimRowBytes = 0) := by
  have hdvi : (sortDimensionColumns qc).dimensionVectorIndex =
      setSeq (List.replicate qc.aqlQuery.dimensions.length 0)
        (bucketConcat qc.aqlQuery.dimensions) 0 := by
    simp only [sortDimensionColumns, hc]
    norm_num [sortBuckets_eq4]
  have hrb2 : (sortDimensionColumns qc).dimRowBytes =
      (qc.aqlQuery.dimensions.map dimWidth).sum + qc.aqlQuery.dimensions.length := by
    have hsum := matched_width_sum qc.aqlQuery.dimensions hw
    simp only [sortDimensionColumns, hc]
    norm_num [sortBuckets_eq4]
    omega
  have hAperm := bucketConcat_perm_range qc.aqlQuery.dimensions hw
  have hAnodup := bucketConcat_nodup qc.aqlQuery.dimensions
  have hAlen : (bucketConcat qc.aqlQuery.dimensions).length =
      qc.aqlQuery.dimensions.length := by
    rw [hAperm.length_eq, List.length_range]
  have hlen : (sortDimensionColumns qc).dimensionVectorIndex.length =
      qc.aqlQuery.dimensions.length := by
    rw [hdvi, setSeq_length, List.length_replicate]
  have hpt : ∀ i, i < qc.aqlQuery.dimensions.length →
      (sortDimensionColumns qc).dimensionVectorIndex.getD i 0 =
        (bucketConcat qc.aqlQuery.dimensions).indexOf i := by
    intro i hi
    rw [hdvi]
    rw [List.getD_eq_getElem _ 0 (by rw [setSeq_length, List.length_replicate]; exact hi)]
    have hgetEq := setSeq_getElem (bucketConcat qc.aqlQuery.dimensions)
      (List.replicate qc.aqlQuery.dimensions.length 0) 0 i
      (by rw [List.length_replicate]; exact hi)
      (by rw [setSeq_length, List.length_replicate]; exact hi) hAnodup
    rw [if_pos ((bucketConcat_mem qc.aqlQuery.dimensions hw i).mpr hi)] at hgetEq
    rw [hgetEq]
    omega
  refine ⟨hlen, ?_, ?_, hrb2, ?_⟩
  · have hform : (sortDimensionColumns qc).dimensionVectorIndex =
        (List.range qc.aqlQuery.dimensions.length).map
          (fun i => (bucketConcat qc.aqlQuery.dimensions).indexOf i) := by
      apply List.ext_getElem
      · rw [hlen, List.length_map, List.length_range]
      · intro k h1 h2
        have hk : k < qc.aqlQuery.dimensions.length := by rw [hlen] at h1; exact h1
        rw [List.getElem_map, List.getElem_range]
        rw [← List.getD_eq_getElem _ 0 h1]
        exact hpt k hk
    rw [hform]
    have h2 : ((List.range qc.aqlQuery.dimensions.length).map
        (fun i => (bucketConcat qc.aqlQuery.dimensions).indexOf i)).Perm
        ((bucketConcat qc.aqlQuery.dimensions).map
          (fun i => (bucketConcat qc.aqlQuery.dimensions).indexOf i)) :=
      (hAperm.symm).map _
    have h3 : (bucketConcat qc.aqlQuery.dimensions).map
        (fun i => (bucketConcat qc.aqlQuery.dimensions).indexOf i) =
        List.range qc.aqlQuery.dimensions.length := by
      apply List.ext_getElem
      · rw [List.length_map, hAlen, List.length_range]
      · intro k h1 h2
        rw [List.getElem_map, List.getElem_range]
        exact List.indexOf_getElem hAnodup k (by simpa using h1)
    rw [h3] at h2
    exact h2
  · intro i j hi hj hcond
    rw [hpt i hi, hpt j hj]
    exact bucketConcat_indexOf_lt qc.aqlQuery.dimensions hw i j hi hj hcond
  · intro hnil
    rw [hrb2, hnil]
    simp

/-- A context with two resolved dimensions of widths 1 (`c Uint8`) and 4
(`a Uint32`). -/
def aqlSortW : AQLQuery :=
  { table := "t", joins := [], measures := [],
    dimensions := [⟨"c", Expr.varRef "c" .Unsigned 0 2 .Uint8 none [] false⟩,
      ⟨"a", Expr.varRef "a" .Unsigned 0 0 .Uint32 none [] false⟩],
    filters := [], filtersParsed := [], limit := 0, supportingMeasures := [],
    supportingDimensions := [] }

def qcSortW : QueryContext :=
  { aqlQuery := aqlSortW,
    isNonAggregationQuery := true, returnHLLBinary := false, error := none,
    tables := [], tableIDByAlias := [], numDimsPerDimWidth := [0, 0, 0, 0],
    dimensionEnumReverseDicts := [], dimensionVectorIndex := [], dimRowBytes := 0 }

/-- Witness for C8 at a context with a 1-byte and a 4-byte dimension: the
vector index has length 2 and is a permutation of `0..1`, and
`DimRowBytes = (1 + 4) + 2 = 7`. -/
theorem claim8_sort_dimensions_witness :
    (sortDimensionColumns qcSortW).dimensionVectorIndex.length = 2 ∧
    (sortDimensionColumns qcSortW).dimensionVectorIndex.Perm (List.range 2) ∧
    (sortDimensionColumns qcSortW).dimRowBytes = 7 := by
  have h := claim8_sort_dimensions qcSortW 0 0 0 0 (by rfl) (by rfl)
    (by
      intro d hd
      simp only [qcSortW, aqlSortW, List.mem_cons, List.not_mem_nil, or_false] at hd
      rcases hd with rfl | rfl
      · decide
      · decide)
  refine ⟨?_, ?_, ?_⟩
  · simpa [qcSortW, aqlSortW] using h.1
  · simpa [qcSortW, aqlSortW] using h.2.1
  · have hb := h.2.2.2.1
    simpa [dimWidth, getDimensionDataBytes, dataTypeBytes, qcSortW, aqlSortW, Expr.type] using hb

end AresBroker
